import Mathlib

/-!
# Verification of the nomo7 deterministic puzzle pipeline

Shallow embedding of the repository's deterministic nonogram core:

* the Mulberry32 seeded random number generator (three token-identical
  copies live in `src/services/geminiService.ts`, `backend/validation.js`
  and `scripts/generate-seeds.cjs`; each gets its own Lean translation),
* the density-targeted grid synthesis (`generatePuzzle`,
  `generateTargetGrid`, `generateGrid`),
* the server-side solution validator (`validateSolution`),
* the line-constraint nonogram solver (`NonogramSolver` in
  `src/utils/nonogramSolver.ts` and `Solver` in
  `scripts/generate-seeds.cjs`).

Modelling conventions:

* JavaScript numbers that hold 32-bit integer data are modelled as `Int`
  (`Nat` once known non-negative); the bitwise pipeline of Mulberry32 is
  modelled exactly, as arithmetic modulo `2 ^ 32`.
* JavaScript floating point values produced by `rng()` are exact dyadic
  rationals `t / 2 ^ 32` and are modelled in `ℚ`; derived float
  arithmetic (density interpolation, `Math.floor` products) is modelled
  by exact rational arithmetic.  Both communicating implementations
  perform the identical operation sequence, so equivalence statements
  are insensitive to this choice.
* A JavaScript number that may be `NaN` (a seed parsed from a malformed
  string) is modelled as `Option Int`, `none` standing for `NaN`; the
  Mulberry32 closure applied to `NaN` yields the constant `0` stream
  (`NaN | 0 = 0` at every step), which the model reproduces.
* Fallible code paths (`undefined.replace`, `Array(invalid length)`) are
  modelled with `Except String`.
-/

/-! ## JavaScript runtime primitives shared by all call sites -/

namespace JsRt

/-- `x | 0` / `ToInt32` on an exact integer: reduce modulo `2 ^ 32`
(onto the unsigned representative, which is congruent to the signed
JavaScript value and interchangeable under all further bit operations). -/
def toUint32 (x : Int) : Nat := (x.emod 4294967296).toNat

/-- `Math.imul` on unsigned 32-bit representatives. -/
def imul32 (a b : Nat) : Nat := (a * b) % 4294967296

/-- 32-bit addition (a JavaScript float addition of two int32 values,
followed by the implicit `ToInt32` of the consuming xor). -/
def add32 (a b : Nat) : Nat := (a + b) % 4294967296

/-- The bit-mixing body of Mulberry32 applied to one advanced stateword:
`t = s; t = imul(t ^ (t >>> 15), t | 1); t ^= t + imul(t ^ (t >>> 7), t | 61); return (t ^ (t >>> 14)) >>> 0`. -/
def mulberryMix (s : Nat) : Nat :=
  let t1 := imul32 (s ^^^ (s >>> 15)) (s ||| 1)
  let t2 := t1 ^^^ add32 t1 (imul32 (t1 ^^^ (t1 >>> 7)) (t1 ||| 61))
  t2 ^^^ (t2 >>> 14)

/-- The Mulberry32 internal state before the `k`-th mix: the closure has
executed `seed += 0x6D2B79F5` exactly `k + 1` times (JavaScript keeps the
sum exact for every feasible call count), then truncates with `| 0`. -/
def mulberryState (seed : Int) (k : Nat) : Nat :=
  toUint32 (seed + (k + 1) * 1831565813)

/-- The `k`-th output (0-indexed) of `mulberry32(seed)` as an exact
rational in `[0, 1)`; `none` models a `NaN` seed, for which every bitwise
step collapses to `0` and the closure returns `0` forever. -/
def mulberryOut (seed : Option Int) (k : Nat) : ℚ :=
  match seed with
  | some s => (mulberryMix (mulberryState s k) : ℚ) / 4294967296
  | none => 0

/-- `Math.floor` on an exact rational. -/
def jsFloor (q : ℚ) : Int := ⌊q⌋

theorem toUint32_lt (x : Int) : toUint32 x < 4294967296 := by
  unfold toUint32
  have h1 : x.emod 4294967296 < 4294967296 := Int.emod_lt_of_pos x (by norm_num)
  have h2 : 0 ≤ x.emod 4294967296 := Int.emod_nonneg x (by norm_num)
  omega

theorem mulberryMix_lt (s : Nat) :
    mulberryMix s < 4294967296 := by
  unfold mulberryMix
  have h32 : (4294967296 : Nat) = 2 ^ 32 := by norm_num
  have ht1 : imul32 (s ^^^ (s >>> 15)) (s ||| 1) < 4294967296 :=
    Nat.mod_lt _ (by norm_num)
  set t1 := imul32 (s ^^^ (s >>> 15)) (s ||| 1) with ht1def
  have hadd : add32 t1 (imul32 (t1 ^^^ (t1 >>> 7)) (t1 ||| 61)) < 4294967296 :=
    Nat.mod_lt _ (by norm_num)
  set a := add32 t1 (imul32 (t1 ^^^ (t1 >>> 7)) (t1 ||| 61)) with hadef
  have ht2 : t1 ^^^ a < 4294967296 := by
    rw [h32] at ht1 hadd ⊢
    exact Nat.xor_lt_two_pow ht1 hadd
  set t2 := t1 ^^^ a with ht2def
  have hshift : t2 >>> 14 < 4294967296 := by
    rw [Nat.shiftRight_eq_div_pow]
    exact lt_of_le_of_lt (Nat.div_le_self _ _) ht2
  rw [h32] at ht2 hshift ⊢
  exact Nat.xor_lt_two_pow ht2 hshift

theorem mulberryOut_nonneg (seed : Option Int) (k : Nat) :
    0 ≤ mulberryOut seed k := by
  cases seed with
  | none => simp [mulberryOut]
  | some s =>
    simp only [mulberryOut]
    positivity

theorem mulberryOut_lt_one (seed : Option Int) (k : Nat) :
    mulberryOut seed k < 1 := by
  cases seed with
  | none => simp [mulberryOut]
  | some s =>
    simp only [mulberryOut]
    rw [div_lt_one (by norm_num)]
    have h := mulberryMix_lt (mulberryState s k)
    exact_mod_cast h

/-- Shared 2D grid primitives (JavaScript `grid[y][x]` reads/writes on an
array-of-arrays, out-of-range reads defaulting like the in-range checks
used by the sources guarantee never happen). -/
def getCell (g : List (List Nat)) (y x : Nat) : Nat := (g.getD y []).getD x 0

/-- `grid[y][x] = v` on an array-of-arrays. -/
def setCell (g : List (List Nat)) (y x v : Nat) : List (List Nat) :=
  g.set y ((g.getD y []).set x v)

/-- `grid.forEach(row => row.forEach(val => count += val))`. -/
def filledCount (g : List (List Nat)) : Nat := (g.map List.sum).sum

/-- `grid[r][c]` read on an integer-valued grid (the replayed user grid,
whose cells may hold arbitrary client-supplied state numbers). -/
def getCellI (g : List (List Int)) (y x : Nat) : Int := (g.getD y []).getD x 0

/-- `grid[r][c] = v` write on an integer-valued grid. -/
def setCellI (g : List (List Int)) (y x : Nat) (v : Int) : List (List Int) :=
  g.set y ((g.getD y []).set x v)

/-- Decimal digit list to a number (most significant first). -/
def digitsToNat (base : Nat) (ds : List Nat) : Nat :=
  ds.foldl (fun acc d => acc * base + d) 0

/-- Value of a character as a base-`base` digit (`10` or `16`), if any. -/
def digitVal (base : Nat) (c : Char) : Option Nat :=
  if c.isDigit then
    if c.toNat - 48 < base then some (c.toNat - 48) else none
  else if base = 16 ∧ 'a' ≤ c ∧ c ≤ 'f' then some (c.toNat - 87)
  else if base = 16 ∧ 'A' ≤ c ∧ c ≤ 'F' then some (c.toNat - 55)
  else none

/-- JavaScript `parseInt(str)` (radix auto-detected, so decimal or `0x`
hex): skip leading whitespace, read an optional sign, then the longest
digit prefix; `none` models `NaN` (no digits).  Digit strings are
modelled exactly (the float rounding JavaScript applies beyond `2 ^ 53`
is outside the model). -/
def parseIntJS (s : String) : Option Int :=
  let cs := s.data.dropWhile Char.isWhitespace
  let signAndRest : Int × List Char :=
    match cs with
    | '-' :: rest => (-1, rest)
    | '+' :: rest => (1, rest)
    | _ => (1, cs)
  let baseAndRest : Nat × List Char :=
    match signAndRest.2 with
    | '0' :: 'x' :: rest => (16, rest)
    | '0' :: 'X' :: rest => (16, rest)
    | _ => (10, signAndRest.2)
  let ds := (baseAndRest.2.takeWhile (fun c => (digitVal baseAndRest.1 c).isSome)).map
    (fun c => (digitVal baseAndRest.1 c).getD 0)
  if ds.isEmpty then none
  else some (signAndRest.1 * digitsToNat baseAndRest.1 ds)

/-- Collapse every whitespace run to a single `'_'`
(`.replace(/\s+/g, '_')`); the boolean tracks whether the previous
character was whitespace. -/
def collapseWs : Bool → List Char → List Char
  | _, [] => []
  | prevWs, c :: rest =>
      if c.isWhitespace then
        if prevWs then collapseWs true rest
        else '_' :: collapseWs true rest
      else c :: collapseWs false rest

/-- `diffStr.replace(/\s+/g, '_').toUpperCase()` (ASCII uppercase). -/
def sanitizeKey (s : String) : String :=
  String.mk ((collapseWs false s.data).map Char.toUpper)

end JsRt

/-! ## Client-side generation: `src/services/geminiService.ts` -/

namespace Gemini

open JsRt

/-- `DifficultySettings` from `src/types.ts` (the `label` is UI-only). -/
structure DifficultySettings where
  label : String
  minDensity : ℚ
  maxDensity : ℚ
  deriving Repr, DecidableEq

/-- The `k`-th value of the `Random` instance built on `mulberry32(seed)`
(`Random.next` forwards to the closure). -/
def rngAt (seed : Option Int) (k : Nat) : ℚ := mulberryOut seed k

/-- `targetDensity = difficulty.minDensity + rng.next() * (difficulty.maxDensity - difficulty.minDensity)` —
the first stream draw. -/
def targetDensity (seed : Option Int) (cfg : DifficultySettings) : ℚ :=
  cfg.minDensity + rngAt seed 0 * (cfg.maxDensity - cfg.minDensity)

/-- `targetFillCount = Math.floor(totalCells * targetDensity)`. -/
def targetFillCount (seed : Option Int) (size : Nat) (cfg : DifficultySettings) : Nat :=
  (jsFloor ((size * size : Nat) * targetDensity seed cfg)).toNat

/-- Step 1 (initial noise): row-major pass setting `grid[y][x] = rng.bool(targetDensity) ? 1 : 0`;
cell `(y, x)` consumes stream draw `1 + y * size + x`. -/
def initialNoise (seed : Option Int) (size : Nat) (cfg : DifficultySettings) :
    List (List Nat) :=
  (List.range size).map (fun y =>
    (List.range size).map (fun x =>
      if rngAt seed (1 + y * size + x) < targetDensity seed cfg then 1 else 0))

/-- The row-major `coords` list of `{y, x}` records. -/
def coordsList (size : Nat) : List (Nat × Nat) :=
  (List.range size).flatMap (fun y => (List.range size).map (fun x => (y, x)))

/-- One Fisher–Yates swap `[coords[i], coords[j]] = [coords[j], coords[i]]`. -/
def listSwap (l : List (Nat × Nat)) (i j : Nat) : List (Nat × Nat) :=
  let vi := l.getD i (0, 0)
  let vj := l.getD j (0, 0)
  (l.set i vj).set j vi

/-- The Fisher–Yates loop `for (let i = coords.length - 1; i > 0; i--)`;
iteration with loop variable `i = cnt` consumes stream draw `k` and swaps
with `j = Math.floor(rng.next() * (i + 1))`. -/
def fisherYatesAux (seed : Option Int) (k : Nat) :
    Nat → List (Nat × Nat) → List (Nat × Nat)
  | 0, arr => arr
  | cnt + 1, arr =>
      let j := (jsFloor (rngAt seed k * (cnt + 2 : Nat))).toNat
      fisherYatesAux seed (k + 1) cnt (listSwap arr (cnt + 1) j)

/-- The shuffled coordinate list; the shuffle continues the stream after
the `1 + size²` draws of step 1 (and the density draw). -/
def shuffledCoords (seed : Option Int) (size : Nat) : List (Nat × Nat) :=
  fisherYatesAux seed (1 + size * size) (size * size - 1) (coordsList size)

/-- `if (diff > 0)` walk: flip the first `d` filled cells (1 → 0) met on
the shuffled list (the `diff === 0` break is the `d = 0` case). -/
def flipDown : List (Nat × Nat) → List (List Nat) → Nat → List (List Nat)
  | _, g, 0 => g
  | [], g, _ + 1 => g
  | (y, x) :: rest, g, d + 1 =>
      if getCell g y x = 1 then flipDown rest (setCell g y x 0) d
      else flipDown rest g (d + 1)

/-- `else if (diff < 0)` walk: flip the first `d` empty cells (0 → 1). -/
def flipUp : List (Nat × Nat) → List (List Nat) → Nat → List (List Nat)
  | _, g, 0 => g
  | [], g, _ + 1 => g
  | (y, x) :: rest, g, d + 1 =>
      if getCell g y x = 0 then flipUp rest (setCell g y x 1) d
      else flipUp rest g (d + 1)

/-- Step 2 (density correction): count the noise grid, shuffle the
coordinates, and flip `|diff|` cells in shuffled order. -/
def densityCorrected (seed : Option Int) (size : Nat) (cfg : DifficultySettings) :
    List (List Nat) :=
  let grid := initialNoise seed size cfg
  let diff : Int := (filledCount grid : Int) - targetFillCount seed size cfg
  let coords := shuffledCoords seed size
  if 0 < diff then flipDown coords grid diff.toNat
  else if diff < 0 then flipUp coords grid (-diff).toNat
  else grid

/-- Step 3 (safety check): force the centre cell filled if the grid came
out all-empty against a positive target, or the top-left cell empty if it
came out all-filled against a sub-maximal target. -/
def safetyChecked (seed : Option Int) (size : Nat) (cfg : DifficultySettings) :
    List (List Nat) :=
  let grid := densityCorrected seed size cfg
  let currentFillCount := filledCount grid
  let grid1 :=
    if currentFillCount = 0 ∧ 0 < targetFillCount seed size cfg
    then setCell grid (size / 2) (size / 2) 1 else grid
  if currentFillCount = size * size ∧ targetFillCount seed size cfg < size * size
  then setCell grid1 0 0 0 else grid1

/-- The grid field of the `PuzzleData` returned by `generatePuzzle`
(title/size/seed echoes and the cosmetic UI delay are not modelled). -/
def generatePuzzle (seed : Option Int) (size : Nat) (cfg : DifficultySettings) :
    List (List Nat) :=
  safetyChecked seed size cfg

end Gemini

/-! ## Client difficulty table: `DIFFICULTY_CONFIG` of `src/leaderboard.tsx`
(the game-config module bundled there) -/

namespace ClientConfig

/-- The client's `DIFFICULTY_CONFIG` entries, keyed by `DifficultyLevel`. -/
def DIFFICULTY_CONFIG (key : String) : Option Gemini.DifficultySettings :=
  if key = "VERY_EASY" then some ⟨"Very Easy (64-70%)", 0.63, 0.70⟩
  else if key = "EASY" then some ⟨"Easy (58-62%)", 0.57, 0.62⟩
  else if key = "MEDIUM" then some ⟨"Medium (53-58%)", 0.53, 0.58⟩
  else if key = "HARD" then some ⟨"Hard (48-52%)", 0.48, 0.52⟩
  else if key = "VERY_HARD" then some ⟨"Very Hard (40-48%)", 0.40, 0.48⟩
  else none

end ClientConfig

/-! ## Server-side validator: `backend/validation.js` -/

namespace ValidationJs

open JsRt

/-- A server-side `DIFFICULTY_CONFIG` entry (`{ minDensity, maxDensity }`). -/
structure DensityRange where
  minDensity : ℚ
  maxDensity : ℚ
  deriving Repr, DecidableEq

/-- The validator's own `DIFFICULTY_CONFIG` table. -/
def DIFFICULTY_CONFIG (key : String) : Option DensityRange :=
  if key = "VERY_EASY" then some ⟨0.60, 0.79⟩
  else if key = "EASY" then some ⟨0.55, 0.60⟩
  else if key = "MEDIUM" then some ⟨0.53, 0.58⟩
  else if key = "HARD" then some ⟨0.4, 0.50⟩
  else if key = "VERY_HARD" then some ⟨0.10, 0.30⟩
  else none

/-- The `k`-th value of `seededRandom(seed)` (the server's `mulberry32`). -/
def rngAt (seed : Option Int) (k : Nat) : ℚ := mulberryOut seed k

/-- `targetDensity = difficulty.minDensity + (rng() * (difficulty.maxDensity - difficulty.minDensity))`. -/
def targetDensity (seed : Option Int) (cfg : DensityRange) : ℚ :=
  cfg.minDensity + rngAt seed 0 * (cfg.maxDensity - cfg.minDensity)

/-- `targetFillCount = Math.floor(totalCells * targetDensity)`. -/
def targetFillCount (seed : Option Int) (size : Nat) (cfg : DensityRange) : Nat :=
  (jsFloor ((size * size : Nat) * targetDensity seed cfg)).toNat

/-- Step 1 (initial noise) of `generateTargetGrid`, row-major. -/
def initialNoise (seed : Option Int) (size : Nat) (cfg : DensityRange) :
    List (List Nat) :=
  (List.range size).map (fun y =>
    (List.range size).map (fun x =>
      if rngAt seed (1 + y * size + x) < targetDensity seed cfg then 1 else 0))

/-- The row-major `coords` list (`{ y, x }` order, as the comment in the
source stresses, to match the frontend correction). -/
def coordsList (size : Nat) : List (Nat × Nat) :=
  (List.range size).flatMap (fun y => (List.range size).map (fun x => (y, x)))

/-- One deterministic shuffle swap. -/
def listSwap (l : List (Nat × Nat)) (i j : Nat) : List (Nat × Nat) :=
  let vi := l.getD i (0, 0)
  let vj := l.getD j (0, 0)
  (l.set i vj).set j vi

/-- The `for (let i = coords.length - 1; i > 0; i--)` shuffle loop. -/
def fisherYatesAux (seed : Option Int) (k : Nat) :
    Nat → List (Nat × Nat) → List (Nat × Nat)
  | 0, arr => arr
  | cnt + 1, arr =>
      let j := (jsFloor (rngAt seed k * (cnt + 2 : Nat))).toNat
      fisherYatesAux seed (k + 1) cnt (listSwap arr (cnt + 1) j)

/-- The shuffled coordinates, continuing the stream after step 1. -/
def shuffledCoords (seed : Option Int) (size : Nat) : List (Nat × Nat) :=
  fisherYatesAux seed (1 + size * size) (size * size - 1) (coordsList size)

/-- `if (diff > 0)` correction walk. -/
def flipDown : List (Nat × Nat) → List (List Nat) → Nat → List (List Nat)
  | _, g, 0 => g
  | [], g, _ + 1 => g
  | (y, x) :: rest, g, d + 1 =>
      if getCell g y x = 1 then flipDown rest (setCell g y x 0) d
      else flipDown rest g (d + 1)

/-- `else if (diff < 0)` correction walk. -/
def flipUp : List (Nat × Nat) → List (List Nat) → Nat → List (List Nat)
  | _, g, 0 => g
  | [], g, _ + 1 => g
  | (y, x) :: rest, g, d + 1 =>
      if getCell g y x = 0 then flipUp rest (setCell g y x 1) d
      else flipUp rest g (d + 1)

/-- Step 2 (density correction) of `generateTargetGrid`. -/
def densityCorrected (seed : Option Int) (size : Nat) (cfg : DensityRange) :
    List (List Nat) :=
  let grid := initialNoise seed size cfg
  let diff : Int := (filledCount grid : Int) - targetFillCount seed size cfg
  let coords := shuffledCoords seed size
  if 0 < diff then flipDown coords grid diff.toNat
  else if diff < 0 then flipUp coords grid (-diff).toNat
  else grid

/-- `generateTargetGrid(seed, size, difficulty)`: noise, correction and
the step 3 safety check. -/
def generateTargetGrid (seed : Option Int) (size : Nat) (cfg : DensityRange) :
    List (List Nat) :=
  let grid := densityCorrected seed size cfg
  let finalFillCount := filledCount grid
  let grid1 :=
    if finalFillCount = 0 ∧ 0 < targetFillCount seed size cfg
    then setCell grid (size / 2) (size / 2) 1 else grid
  if finalFillCount = size * size ∧ targetFillCount seed size cfg < size * size
  then setCell grid1 0 0 0 else grid1

end ValidationJs

/-! ### Agreement of the two generator translations

The client file and the validator file carry token-identical copies of
the generation algorithm; the lemmas below prove the two independent
Lean translations extensionally equal, component by component. -/

theorem fisherYatesAux_agree (seed : Option Int) :
    ∀ (cnt k : Nat) (arr : List (Nat × Nat)),
      Gemini.fisherYatesAux seed k cnt arr = ValidationJs.fisherYatesAux seed k cnt arr := by
  intro cnt
  induction cnt with
  | zero => intro k arr; rfl
  | succ n ih =>
      intro k arr
      rw [Gemini.fisherYatesAux, ValidationJs.fisherYatesAux]
      exact ih (k + 1) _

theorem flipDown_agree :
    ∀ (l : List (Nat × Nat)) (g : List (List Nat)) (d : Nat),
      Gemini.flipDown l g d = ValidationJs.flipDown l g d := by
  intro l
  induction l with
  | nil => intro g d; cases d <;> rfl
  | cons p rest ih =>
      intro g d
      obtain ⟨y, x⟩ := p
      cases d with
      | zero => rfl
      | succ d =>
          rw [Gemini.flipDown, ValidationJs.flipDown]
          by_cases h : JsRt.getCell g y x = 1 <;> simp only [h, if_true, if_false] <;> apply ih

theorem flipUp_agree :
    ∀ (l : List (Nat × Nat)) (g : List (List Nat)) (d : Nat),
      Gemini.flipUp l g d = ValidationJs.flipUp l g d := by
  intro l
  induction l with
  | nil => intro g d; cases d <;> rfl
  | cons p rest ih =>
      intro g d
      obtain ⟨y, x⟩ := p
      cases d with
      | zero => rfl
      | succ d =>
          rw [Gemini.flipUp, ValidationJs.flipUp]
          by_cases h : JsRt.getCell g y x = 0 <;> simp only [h, if_true, if_false] <;> apply ih

theorem densityCorrected_agree (seed : Option Int) (size : Nat) (mn mx : ℚ) (lbl : String) :
    Gemini.densityCorrected seed size ⟨lbl, mn, mx⟩ =
      ValidationJs.densityCorrected seed size ⟨mn, mx⟩ := by
  rw [Gemini.densityCorrected, ValidationJs.densityCorrected]
  have hnoise : Gemini.initialNoise seed size ⟨lbl, mn, mx⟩ =
      ValidationJs.initialNoise seed size ⟨mn, mx⟩ := rfl
  have hcoords : Gemini.shuffledCoords seed size = ValidationJs.shuffledCoords seed size := by
    rw [Gemini.shuffledCoords, ValidationJs.shuffledCoords]
    exact fisherYatesAux_agree seed _ _ _
  have htarget : Gemini.targetFillCount seed size ⟨lbl, mn, mx⟩ =
      ValidationJs.targetFillCount seed size ⟨mn, mx⟩ := rfl
  simp only [hnoise, hcoords, htarget]
  by_cases h1 : (0 : Int) < (JsRt.filledCount (ValidationJs.initialNoise seed size ⟨mn, mx⟩) : Int) -
      ValidationJs.targetFillCount seed size ⟨mn, mx⟩
  · simp only [h1, if_true]
    exact flipDown_agree _ _ _
  · simp only [h1, if_false]
    by_cases h2 : ((JsRt.filledCount (ValidationJs.initialNoise seed size ⟨mn, mx⟩) : Int) -
        ValidationJs.targetFillCount seed size ⟨mn, mx⟩) < 0
    · simp only [h2, if_true]
      exact flipUp_agree _ _ _
    · simp only [h2, if_false]

theorem generatePuzzle_agree (seed : Option Int) (size : Nat) (mn mx : ℚ) (lbl : String) :
    Gemini.generatePuzzle seed size ⟨lbl, mn, mx⟩ =
      ValidationJs.generateTargetGrid seed size ⟨mn, mx⟩ := by
  rw [Gemini.generatePuzzle, Gemini.safetyChecked, ValidationJs.generateTargetGrid]
  have hcorr := densityCorrected_agree seed size mn mx lbl
  have htarget : Gemini.targetFillCount seed size ⟨lbl, mn, mx⟩ =
      ValidationJs.targetFillCount seed size ⟨mn, mx⟩ := rfl
  simp only [hcorr, htarget]

namespace ValidationJs

open JsRt

/-- A wire-format move `{ r, c, newState, time }`: coordinates and the
new cell state are client-supplied integers (not trusted to be legal
states), the timestamp an exact rational millisecond count. -/
structure Move where
  r : Int
  c : Int
  newState : Int
  time : ℚ
  deriving Repr, DecidableEq, Inhabited

/-- `CellState.EMPTY`. -/
def EMPTY : Int := 0
/-- `CellState.FILLED`. -/
def FILLED : Int := 1
/-- `CellState.CROSSED`. -/
def CROSSED : Int := 2

/-- Whether a replayed move trips the validator's bounds check
(`r < 0 || r >= size || c < 0 || c >= size`). -/
def outOfBounds (size : Nat) (m : Move) : Prop :=
  m.r < 0 ∨ (size : Int) ≤ m.r ∨ m.c < 0 ∨ (size : Int) ≤ m.c

instance (size : Nat) (m : Move) : Decidable (outOfBounds size m) := by
  unfold outOfBounds; infer_instance

/-- The all-`EMPTY` `userGrid` the history is replayed onto. -/
def emptyUserGrid (size : Nat) : List (List Int) :=
  List.replicate size (List.replicate size EMPTY)

/-- Replaying the history in order onto the user grid
(`userGrid[r][c] = newState`); only invoked on in-bounds moves. -/
def replayGrid (size : Nat) (history : List Move) : List (List Int) :=
  history.foldl (fun g m => setCellI g m.r.toNat m.c.toNat m.newState)
    (emptyUserGrid size)

/-- The per-cell discrepancy test of the final comparison: a target cell
must be `FILLED`, a non-target cell must not be. -/
def cellMismatch (targetState : Nat) (userState : Int) : Prop :=
  (targetState = 1 ∧ userState ≠ FILLED) ∨ (targetState = 0 ∧ userState = FILLED)

instance (t : Nat) (u : Int) : Decidable (cellMismatch t u) := by
  unfold cellMismatch; infer_instance

/-- The `errors` counter of the final grid comparison. -/
def errorCount (size : Nat) (target : List (List Nat)) (user : List (List Int)) : Nat :=
  ((List.range size).map (fun r =>
    ((List.range size).map (fun c =>
      if cellMismatch (getCell target r c) (getCellI user r c) then 1 else 0)).sum)).sum

/-- A `parseInt` result is a usable `Array(size)` length (otherwise the
`Array(size).fill(0)` inside `generateTargetGrid` throws `RangeError`):
an integer in `[0, 2^32)`; `NaN` is never a valid length. -/
def validArrayLength : Option Int → Prop
  | none => False
  | some n => 0 ≤ n ∧ n < 4294967296

instance (n : Option Int) : Decidable (validArrayLength n) := by
  cases n <;> unfold validArrayLength <;> infer_instance

/-- `validateSolution(puzzleId, history)` of `backend/validation.js`:
reject empty histories, split the identifier on `':'`, sanitize the
difficulty key, regenerate the target grid, replay the history with the
bounds check, apply the elapsed-time sanity check, and compare the grids
cell by cell.  `Except.error` models a thrown exception: reading
`replace` of an undefined `diffStr` (fewer than two `':'` fields), or
constructing `Array(size)` from an invalid length. -/
def validateSolution (puzzleId : String) (history : List Move) : Except String Bool :=
  if history.isEmpty then .ok false
  else
    let parts := puzzleId.splitOn ":"
    let sizeNum := parseIntJS (parts.getD 0 "")
    match parts[1]? with
    | none => .error "TypeError: diffStr is undefined"
    | some diffStr =>
        let difficultyKey := sanitizeKey diffStr
        let seedNum := match parts[2]? with
          | none => none
          | some seedStr => parseIntJS seedStr
        match DIFFICULTY_CONFIG difficultyKey with
        | none => .ok false
        | some diffSettings =>
            if validArrayLength sizeNum then
              let size := (sizeNum.getD 0).toNat
              let targetGrid := generateTargetGrid seedNum size diffSettings
              if history.any (fun m => decide (outOfBounds size m)) then .ok false
              else
                let startTime := (history.headD default).time
                let endTime := (history.getLastD default).time
                if endTime - startTime < 0 then .ok false
                else
                  let userGrid := replayGrid size history
                  if 0 < errorCount size targetGrid userGrid then .ok false
                  else .ok true
            else .error "RangeError: Invalid array length"

end ValidationJs

/-! ## Offline seed-pool script: `scripts/generate-seeds.cjs` -/

namespace SeedScript

open JsRt

/-- A script `DIFFICULTY_CONFIG` entry. -/
structure DensityRange where
  minDensity : ℚ
  maxDensity : ℚ
  deriving Repr, DecidableEq

/-- The `k`-th value of the script's `Random` over `mulberry32(seed)`. -/
def rngAt (seed : Option Int) (k : Nat) : ℚ := mulberryOut seed k

/-- The script's target density draw. -/
def targetDensity (seed : Option Int) (cfg : DensityRange) : ℚ :=
  cfg.minDensity + rngAt seed 0 * (cfg.maxDensity - cfg.minDensity)

/-- `targetFillCount = Math.floor(size * size * targetDensity)`. -/
def targetFillCount (seed : Option Int) (size : Nat) (cfg : DensityRange) : Nat :=
  (jsFloor ((size * size : Nat) * targetDensity seed cfg)).toNat

/-- The script's row-major noise pass. -/
def initialNoise (seed : Option Int) (size : Nat) (cfg : DensityRange) :
    List (List Nat) :=
  (List.range size).map (fun y =>
    (List.range size).map (fun x =>
      if rngAt seed (1 + y * size + x) < targetDensity seed cfg then 1 else 0))

/-- The script's row-major `coords` list. -/
def coordsList (size : Nat) : List (Nat × Nat) :=
  (List.range size).flatMap (fun y => (List.range size).map (fun x => (y, x)))

/-- One shuffle swap. -/
def listSwap (l : List (Nat × Nat)) (i j : Nat) : List (Nat × Nat) :=
  let vi := l.getD i (0, 0)
  let vj := l.getD j (0, 0)
  (l.set i vj).set j vi

/-- The script's Fisher–Yates loop. -/
def fisherYatesAux (seed : Option Int) (k : Nat) :
    Nat → List (Nat × Nat) → List (Nat × Nat)
  | 0, arr => arr
  | cnt + 1, arr =>
      let j := (jsFloor (rngAt seed k * (cnt + 2 : Nat))).toNat
      fisherYatesAux seed (k + 1) cnt (listSwap arr (cnt + 1) j)

/-- The shuffled coordinates. -/
def shuffledCoords (seed : Option Int) (size : Nat) : List (Nat × Nat) :=
  fisherYatesAux seed (1 + size * size) (size * size - 1) (coordsList size)

/-- `diff > 0` correction walk. -/
def flipDown : List (Nat × Nat) → List (List Nat) → Nat → List (List Nat)
  | _, g, 0 => g
  | [], g, _ + 1 => g
  | (y, x) :: rest, g, d + 1 =>
      if getCell g y x = 1 then flipDown rest (setCell g y x 0) d
      else flipDown rest g (d + 1)

/-- `diff < 0` correction walk. -/
def flipUp : List (Nat × Nat) → List (List Nat) → Nat → List (List Nat)
  | _, g, 0 => g
  | [], g, _ + 1 => g
  | (y, x) :: rest, g, d + 1 =>
      if getCell g y x = 0 then flipUp rest (setCell g y x 1) d
      else flipUp rest g (d + 1)

/-- `generateGrid(seed, size, difficulty)`: noise plus density
correction.  Unlike the client's `generatePuzzle` and the validator's
`generateTargetGrid`, the script stops here — it has no step 3 safety
check. -/
def generateGrid (seed : Option Int) (size : Nat) (cfg : DensityRange) :
    List (List Nat) :=
  let grid := initialNoise seed size cfg
  let diff : Int := (filledCount grid : Int) - targetFillCount seed size cfg
  let coords := shuffledCoords seed size
  if 0 < diff then flipDown coords grid diff.toNat
  else if diff < 0 then flipUp coords grid (-diff).toNat
  else grid

/-- `calculateHints`: accumulate runs of 1s; the `count` argument is the
running-run accumulator. -/
def calcHintsAux : List Nat → Nat → List Nat
  | [], count => if 0 < count then [count] else []
  | cell :: rest, count =>
      if cell = 1 then calcHintsAux rest (count + 1)
      else if 0 < count then count :: calcHintsAux rest 0
      else calcHintsAux rest 0

/-- `calculateHints(line)`: the run lengths, `[0]` for a blank line. -/
def calculateHints (line : List Nat) : List Nat :=
  let hints := calcHintsAux line 0
  if hints.isEmpty then [0] else hints

/-- `CellState.EMPTY` of the solver working grid. -/
def SEMPTY : Nat := 0
/-- `CellState.FILLED`. -/
def SFILLED : Nat := 1
/-- `CellState.CROSSED`. -/
def SCROSSED : Nat := 2

/-- The inlined compatibility filter of `getConfigs`: a full-length
candidate is kept unless it unsets a known-filled cell or fills a
known-crossed cell. -/
def compatibleConfig (config line : List Nat) : Prop :=
  ∀ i < config.length,
    (line.getD i 0 = 1 → config.getD i 0 = 1) ∧
    (line.getD i 0 = 2 → config.getD i 0 ≠ 1)

instance (config line : List Nat) : Decidable (compatibleConfig config line) := by
  unfold compatibleConfig; infer_instance

/-- `for (let j = 0; j < hint; j++) current[i + j] = FILLED`. -/
def placeRun : List Nat → Nat → Nat → List Nat
  | cur, _, 0 => cur
  | cur, i, h + 1 => placeRun (cur.set i 1) (i + 1) h

/-- The `backtrack(hIdx, start)` recursion of `getConfigs`: place the
next run at every admissible `i`, recurse, and at the bottom map the
still-empty cells to `CROSSED` and apply the compatibility filter. -/
def configsAux (line : List Nat) : List Nat → List Nat → Nat → List (List Nat)
  | [], current, _ =>
      let config := current.map (fun v => if v = 0 then 2 else v)
      if compatibleConfig config line then [config] else []
  | hint :: rest, current, start =>
      let remain := rest.sum + rest.length
      (List.range' start (line.length + 1 - (remain + hint + start))).flatMap (fun i =>
        if (∀ j < hint, line.getD (i + j) 0 ≠ 2) ∧
           ¬(i + hint < line.length ∧ line.getD (i + hint) 0 = 1) ∧
           (∀ j < i, start ≤ j → line.getD j 0 ≠ 1)
        then configsAux line rest (placeRun current i hint) (i + hint + 1)
        else [])

/-- `getConfigs(line, hints)`. -/
def getConfigs (line hints : List Nat) : List (List Nat) :=
  configsAux line hints (List.replicate line.length 0) 0

/-- `solveLine` on one line: intersect all valid configurations over the
still-empty cells; returns the updated line and the `changed` flag.  The
source writes the changed cells back into the grid; the caller below
does the same with the returned line. -/
def solveLine (line hints : List Nat) : List Nat × Bool :=
  let configs := getConfigs line hints
  if configs.isEmpty then (line, false)
  else
    let newLine := (List.range line.length).map (fun i =>
      let v := line.getD i 0
      if v ≠ 0 then v
      else if ∀ cfg ∈ configs, cfg.getD i 0 = 1 then 1
      else if ∀ cfg ∈ configs, cfg.getD i 0 ≠ 1 then 2
      else 0)
    (newLine, decide (newLine ≠ line))

/-- `this.grid[idx]` row read. -/
def getRow (g : List (List Nat)) (r : Nat) : List Nat := g.getD r []

/-- Row write-back. -/
def setRow (g : List (List Nat)) (r : Nat) (l : List Nat) : List (List Nat) := g.set r l

/-- `this.grid.map(r => r[idx])` column read. -/
def getCol (g : List (List Nat)) (c : Nat) : List Nat :=
  g.map (fun row => row.getD c 0)

/-- Column write-back (`grid[i][idx] = newLine[i]` for every row). -/
def setCol (g : List (List Nat)) (c : Nat) (l : List Nat) : List (List Nat) :=
  g.mapIdx (fun r row => row.set c (l.getD r 0))

/-- One full pass of the solve loop: rows in index order, then columns,
threading the updated grid and or-ing the `changed` flag. -/
def solvePass (size : Nat) (rowHints colHints : List (List Nat))
    (st : List (List Nat)) : List (List Nat) × Bool :=
  let afterRows := (List.range size).foldl (fun acc r =>
    let res := solveLine (getRow acc.1 r) (rowHints.getD r [])
    (if res.2 then setRow acc.1 r res.1 else acc.1, acc.2 || res.2)) (st, false)
  (List.range size).foldl (fun acc c =>
    let res := solveLine (getCol acc.1 c) (colHints.getD c [])
    (if res.2 then setCol acc.1 c res.1 else acc.1, acc.2 || res.2)) afterRows

/-- The `while (changed)` loop.  Fuel bounds the number of passes;
`size² + 1` exceeds any possible run because a changing pass strictly
increases the number of resolved cells. -/
def solveLoop (size : Nat) (rowHints colHints : List (List Nat)) :
    Nat → List (List Nat) → List (List Nat)
  | 0, st => st
  | fuel + 1, st =>
      let res := solvePass size rowHints colHints st
      if res.2 then solveLoop size rowHints colHints fuel res.1 else st

/-- `isSolved()`: no cell is still `EMPTY`. -/
def isSolved (g : List (List Nat)) : Bool :=
  g.all (fun row => row.all (fun v => v ≠ 0))

/-- The all-unknown starting grid of the `Solver` constructor. -/
def initialGrid (size : Nat) : List (List Nat) :=
  List.replicate size (List.replicate size 0)

/-- `Solver.solve()`: iterate to the fixed point and report whether the
terminal grid is fully resolved, returning both. -/
def solve (size : Nat) (rowHints colHints : List (List Nat)) :
    List (List Nat) × Bool :=
  let final := solveLoop size rowHints colHints (size * size + 1) (initialGrid size)
  (final, isSolved final)

end SeedScript

/-! ## Client-side solver: `src/utils/nonogramSolver.ts`

The `NonogramSolver` class; its `solveLine` builds `newLine` and hands
it to `updateFn` when changed, its `getAllValidConfigs` is the same
backtracking enumeration as the script's `getConfigs` with the
compatibility filter split into `isConfigCompatible`. -/

namespace NonogramSolverTs

/-- `isConfigCompatible(config, original)`. -/
def isConfigCompatible (config original : List Nat) : Prop :=
  ∀ i < config.length,
    (original.getD i 0 = 1 → config.getD i 0 = 1) ∧
    (original.getD i 0 = 2 → config.getD i 0 ≠ 1)

instance (config original : List Nat) : Decidable (isConfigCompatible config original) := by
  unfold isConfigCompatible; infer_instance

/-- Placing one run of `FILLED` cells into `current`. -/
def placeRun : List Nat → Nat → Nat → List Nat
  | cur, _, 0 => cur
  | cur, i, h + 1 => placeRun (cur.set i 1) (i + 1) h

/-- The `backtrack(hintIdx, startPos)` recursion of
`getAllValidConfigs`, with the last-possible-start bound
`line.length - remainingHintsSum - remainingGaps - currentHint`. -/
def configsAux (line : List Nat) : List Nat → List Nat → Nat → List (List Nat)
  | [], current, _ =>
      let finalConfig := current.map (fun v => if v = 0 then 2 else v)
      if isConfigCompatible finalConfig line then [finalConfig] else []
  | hint :: rest, current, start =>
      let remain := rest.sum + rest.length
      (List.range' start (line.length + 1 - (remain + hint + start))).flatMap (fun i =>
        if (∀ j < hint, line.getD (i + j) 0 ≠ 2) ∧
           ¬(i + hint < line.length ∧ line.getD (i + hint) 0 = 1) ∧
           (∀ j < i, start ≤ j → line.getD j 0 ≠ 1)
        then configsAux line rest (placeRun current i hint) (i + hint + 1)
        else [])

/-- `getAllValidConfigs(line, hints)`. -/
def getAllValidConfigs (line hints : List Nat) : List (List Nat) :=
  configsAux line hints (List.replicate line.length 0) 0

/-- `solveLine(line, hints, updateFn)` as a pure function: the updated
line (the argument `updateFn` receives when `changed`) and the
`changed` flag.  With zero valid configurations it returns the line
unchanged and `false`. -/
def solveLine (line hints : List Nat) : List Nat × Bool :=
  let configs := getAllValidConfigs line hints
  if configs.isEmpty then (line, false)
  else
    let newLine := (List.range line.length).map (fun i =>
      let v := line.getD i 0
      if v ≠ 0 then v
      else if ∀ cfg ∈ configs, cfg.getD i 0 = 1 then 1
      else if ∀ cfg ∈ configs, cfg.getD i 0 ≠ 1 then 2
      else 0)
    (newLine, decide (newLine ≠ line))

/-- `getRow`. -/
def getRow (g : List (List Nat)) (r : Nat) : List Nat := g.getD r []

/-- `setRow`. -/
def setRow (g : List (List Nat)) (r : Nat) (l : List Nat) : List (List Nat) := g.set r l

/-- `getCol`. -/
def getCol (g : List (List Nat)) (c : Nat) : List Nat :=
  g.map (fun row => row.getD c 0)

/-- `setCol`. -/
def setCol (g : List (List Nat)) (c : Nat) (l : List Nat) : List (List Nat) :=
  g.mapIdx (fun r row => row.set c (l.getD r 0))

/-- One pass of `solve()`: all rows, then all columns. -/
def solvePass (size : Nat) (rowHints colHints : List (List Nat))
    (st : List (List Nat)) : List (List Nat) × Bool :=
  let afterRows := (List.range size).foldl (fun acc r =>
    let res := solveLine (getRow acc.1 r) (rowHints.getD r [])
    (if res.2 then setRow acc.1 r res.1 else acc.1, acc.2 || res.2)) (st, false)
  (List.range size).foldl (fun acc c =>
    let res := solveLine (getCol acc.1 c) (colHints.getD c [])
    (if res.2 then setCol acc.1 c res.1 else acc.1, acc.2 || res.2)) afterRows

/-- The `while (changed)` loop of `solve()` (fuel-bounded as in the
script's solver). -/
def solveLoop (size : Nat) (rowHints colHints : List (List Nat)) :
    Nat → List (List Nat) → List (List Nat)
  | 0, st => st
  | fuel + 1, st =>
      let res := solvePass size rowHints colHints st
      if res.2 then solveLoop size rowHints colHints fuel res.1 else st

/-- `isSolved()`. -/
def isSolved (g : List (List Nat)) : Bool :=
  g.all (fun row => row.all (fun v => v ≠ 0))

/-- The constructor's all-`EMPTY` grid. -/
def initialGrid (size : Nat) : List (List Nat) :=
  List.replicate size (List.replicate size 0)

/-- `solve()`: the terminal grid and whether it is fully resolved. -/
def solve (size : Nat) (rowHints colHints : List (List Nat)) :
    List (List Nat) × Bool :=
  let final := solveLoop size rowHints colHints (size * size + 1) (initialGrid size)
  (final, isSolved final)

end NonogramSolverTs

/-! ### Agreement of the script's generator with the client's

`generate-seeds.cjs` carries the same noise/correction passes as
`geminiService.ts` but stops before the step 3 safety check; its output
coincides with the client's intermediate `densityCorrected` grid. -/

theorem seedScript_fisherYatesAux_agree (seed : Option Int) :
    ∀ (cnt k : Nat) (arr : List (Nat × Nat)),
      SeedScript.fisherYatesAux seed k cnt arr = Gemini.fisherYatesAux seed k cnt arr := by
  intro cnt
  induction cnt with
  | zero => intro k arr; rfl
  | succ n ih =>
      intro k arr
      rw [SeedScript.fisherYatesAux, Gemini.fisherYatesAux]
      exact ih (k + 1) _

theorem seedScript_flipDown_agree :
    ∀ (l : List (Nat × Nat)) (g : List (List Nat)) (d : Nat),
      SeedScript.flipDown l g d = Gemini.flipDown l g d := by
  intro l
  induction l with
  | nil => intro g d; cases d <;> rfl
  | cons p rest ih =>
      intro g d
      obtain ⟨y, x⟩ := p
      cases d with
      | zero => rfl
      | succ d =>
          rw [SeedScript.flipDown, Gemini.flipDown]
          by_cases h : JsRt.getCell g y x = 1 <;> simp only [h, if_true, if_false] <;> apply ih

theorem seedScript_flipUp_agree :
    ∀ (l : List (Nat × Nat)) (g : List (List Nat)) (d : Nat),
      SeedScript.flipUp l g d = Gemini.flipUp l g d := by
  intro l
  induction l with
  | nil => intro g d; cases d <;> rfl
  | cons p rest ih =>
      intro g d
      obtain ⟨y, x⟩ := p
      cases d with
      | zero => rfl
      | succ d =>
          rw [SeedScript.flipUp, Gemini.flipUp]
          by_cases h : JsRt.getCell g y x = 0 <;> simp only [h, if_true, if_false] <;> apply ih

theorem seedScript_generateGrid_agree (seed : Option Int) (size : Nat)
    (mn mx : ℚ) (lbl : String) :
    SeedScript.generateGrid seed size ⟨mn, mx⟩ =
      Gemini.densityCorrected seed size ⟨lbl, mn, mx⟩ := by
  rw [SeedScript.generateGrid, Gemini.densityCorrected]
  have hnoise : SeedScript.initialNoise seed size ⟨mn, mx⟩ =
      Gemini.initialNoise seed size ⟨lbl, mn, mx⟩ := rfl
  have hcoords : SeedScript.shuffledCoords seed size = Gemini.shuffledCoords seed size := by
    rw [SeedScript.shuffledCoords, Gemini.shuffledCoords]
    exact seedScript_fisherYatesAux_agree seed _ _ _
  have htarget : SeedScript.targetFillCount seed size ⟨mn, mx⟩ =
      Gemini.targetFillCount seed size ⟨lbl, mn, mx⟩ := rfl
  simp only [hnoise, hcoords, htarget]
  by_cases h1 : (0 : Int) < (JsRt.filledCount (Gemini.initialNoise seed size ⟨lbl, mn, mx⟩) : Int) -
      Gemini.targetFillCount seed size ⟨lbl, mn, mx⟩
  · simp only [h1, if_true]
    exact seedScript_flipDown_agree _ _ _
  · simp only [h1, if_false]
    by_cases h2 : ((JsRt.filledCount (Gemini.initialNoise seed size ⟨lbl, mn, mx⟩) : Int) -
        Gemini.targetFillCount seed size ⟨lbl, mn, mx⟩) < 0
    · simp only [h2, if_true]
      exact seedScript_flipUp_agree _ _ _
    · simp only [h2, if_false]

/-! ## Generic grid lemmas -/

namespace JsRt

theorem getD_set_self {α : Type} (l : List α) (i : Nat) (v d : α) (h : i < l.length) :
    (l.set i v).getD i d = v := by
  rw [List.getD_eq_getElem?_getD, List.getElem?_set_self h]
  rfl

theorem getD_set_ne {α : Type} (l : List α) (i j : Nat) (v d : α) (h : i ≠ j) :
    (l.set i v).getD j d = l.getD j d := by
  rw [List.getD_eq_getElem?_getD, List.getElem?_set_ne h, ← List.getD_eq_getElem?_getD]

theorem sum_set_getD (l : List Nat) (i : Nat) (v : Nat) (h : i < l.length) :
    (l.set i v).sum + l.getD i 0 = l.sum + v := by
  induction l generalizing i with
  | nil => simp at h
  | cons a t ih =>
      cases i with
      | zero => simp [List.set]; omega
      | succ n =>
          simp only [List.set, List.sum_cons, List.getD_cons_succ]
          have := ih n (by simpa using h)
          omega

theorem count_set {α : Type} [DecidableEq α] (l : List α) (i : Nat) (v a : α)
    (h : i < l.length) :
    (l.set i v).count a + (if l.getD i v = a then 1 else 0) =
      l.count a + (if v = a then 1 else 0) := by
  induction l generalizing i with
  | nil => simp at h
  | cons b t ih =>
      cases i with
      | zero =>
          simp only [List.set, List.count_cons, List.getD_cons_zero]
          by_cases hv : v = a <;> by_cases hb : b = a <;>
            simp [hv, hb] <;> omega
      | succ n =>
          simp only [List.set, List.count_cons, List.getD_cons_succ]
          have := ih n (by simpa using h)
          by_cases hb : b = a <;> simp [hb] at this ⊢ <;> omega

/-- Swapping two in-range entries permutes a list (stated for the
coordinate lists of the Fisher–Yates pass). -/
theorem listSwap_perm (l : List (Nat × Nat)) (i j : Nat)
    (hi : i < l.length) (hj : j < l.length) :
    ((l.set i (l.getD j (0, 0))).set j (l.getD i (0, 0))).Perm l := by
  rw [List.perm_iff_count]
  intro a
  have hlen : (l.set i (l.getD j (0, 0))).length = l.length := List.length_set l i _
  have h1 := count_set l i (l.getD j (0, 0)) a hi
  have h2 := count_set (l.set i (l.getD j (0, 0))) j (l.getD i (0, 0)) a (by rw [hlen]; exact hj)
  have hone : (l.set i (l.getD j (0, 0))).getD j (l.getD i (0, 0)) = l.getD j (0, 0) := by
    by_cases hij : i = j
    · subst hij
      exact getD_set_self l i _ _ hi
    · rw [getD_set_ne l i j _ _ hij]
      rw [List.getD_eq_getElem l _ hj, List.getD_eq_getElem l _ hj]
  have htwo : l.getD i (l.getD j (0, 0)) = l.getD i (0, 0) := by
    rw [List.getD_eq_getElem l _ hi, List.getD_eq_getElem l _ hi]
  rw [hone] at h2
  rw [htwo] at h1
  by_cases ha : l.getD i (0, 0) = a <;> by_cases hb : l.getD j (0, 0) = a <;>
    simp [ha, hb] at h1 h2 ⊢ <;> omega

/-- A binary row's sum counts its `1` entries. -/
theorem sum_eq_countP_of_binary (l : List Nat) (hb : ∀ v ∈ l, v ≤ 1) :
    l.sum = l.countP (fun v => decide (v = 1)) := by
  induction l with
  | nil => rfl
  | cons a t ih =>
      have ha : a ≤ 1 := hb a (List.mem_cons_self a t)
      have ht : ∀ v ∈ t, v ≤ 1 := fun v hv => hb v (List.mem_cons_of_mem a hv)
      rw [List.sum_cons, List.countP_cons, ih ht]
      interval_cases a <;> simp <;> omega

/-- In a binary row the `0`-count and the `1`-count partition the length. -/
theorem countP_zero_add_countP_one (l : List Nat) (hb : ∀ v ∈ l, v ≤ 1) :
    l.countP (fun v => decide (v = 0)) + l.countP (fun v => decide (v = 1)) = l.length := by
  induction l with
  | nil => rfl
  | cons a t ih =>
      have ha : a ≤ 1 := hb a (List.mem_cons_self a t)
      have ht : ∀ v ∈ t, v ≤ 1 := fun v hv => hb v (List.mem_cons_of_mem a hv)
      rw [List.countP_cons, List.countP_cons, List.length_cons, ← ih ht]
      interval_cases a <;> simp <;> omega

/-- A list equals the `getD` diagonal over its own range. -/
theorem range_map_getD {α : Type} (l : List α) (d : α) :
    (List.range l.length).map (fun i => l.getD i d) = l := by
  induction l with
  | nil => rfl
  | cons a t ih =>
      rw [List.length_cons, List.range_succ_eq_map, List.map_cons, List.map_map]
      simp only [List.getD_cons_zero]
      have : (fun i => (a :: t).getD i d) ∘ Nat.succ = fun i => t.getD i d := by
        funext i
        simp
      rw [this, ih]

/-- An `n × n` array-of-arrays. -/
def GridShape (g : List (List Nat)) (n : Nat) : Prop :=
  g.length = n ∧ ∀ row ∈ g, row.length = n

/-- Every cell holds `0` or `1`. -/
def GridBinary (g : List (List Nat)) : Prop :=
  ∀ row ∈ g, ∀ v ∈ row, v ≤ 1

theorem rowD_mem {g : List (List Nat)} {n y : Nat} (hs : GridShape g n) (hy : y < n) :
    g.getD y [] ∈ g := by
  have hlen : y < g.length := by rw [hs.1]; exact hy
  rw [List.getD_eq_getElem g [] hlen]
  exact List.getElem_mem hlen

theorem rowD_length {g : List (List Nat)} {n y : Nat} (hs : GridShape g n) (hy : y < n) :
    (g.getD y []).length = n :=
  hs.2 _ (rowD_mem hs hy)

theorem setCell_oob {g : List (List Nat)} {y : Nat} (h : g.length ≤ y) (x v : Nat) :
    setCell g y x v = g := by
  rw [setCell, List.set_eq_of_length_le h]

theorem gridShape_setCell {g : List (List Nat)} {n : Nat} (hs : GridShape g n)
    (y x v : Nat) : GridShape (setCell g y x v) n := by
  by_cases hy : y < n
  · constructor
    · rw [setCell, List.length_set, hs.1]
    · intro row hrow
      rcases List.mem_or_eq_of_mem_set hrow with h | h
      · exact hs.2 row h
      · subst h
        rw [List.length_set]
        exact rowD_length hs hy
  · rw [setCell_oob (by rw [hs.1]; omega)]
    exact hs

theorem gridBinary_setCell {g : List (List Nat)} (hb : GridBinary g)
    (y x v : Nat) (hv : v ≤ 1) : GridBinary (setCell g y x v) := by
  intro row hrow w hw
  rcases List.mem_or_eq_of_mem_set hrow with h | h
  · exact hb row h w hw
  · subst h
    rcases List.mem_or_eq_of_mem_set hw with h2 | h2
    · exact hb _ (by
        by_cases hy : y < g.length
        · rw [List.getD_eq_getElem g [] hy]
          exact List.getElem_mem hy
        · rw [List.getD_eq_default _ _ (by omega)] at h2
          simp at h2) w h2
    · omega

theorem getCell_setCell_self {g : List (List Nat)} {n : Nat} (hs : GridShape g n)
    {y x : Nat} (hy : y < n) (hx : x < n) (v : Nat) :
    getCell (setCell g y x v) y x = v := by
  rw [getCell, setCell, getD_set_self _ _ _ _ (by rw [hs.1]; exact hy),
    getD_set_self _ _ _ _ (by rw [rowD_length hs hy]; exact hx)]

theorem getCell_setCell_ne {g : List (List Nat)} {y x yp xp : Nat}
    (hne : (yp, xp) ≠ (y, x)) (v : Nat) :
    getCell (setCell g y x v) yp xp = getCell g yp xp := by
  by_cases hy : yp = y
  · subst hy
    have hx : x ≠ xp := by
      intro h
      exact hne (by rw [h])
    by_cases hylen : yp < g.length
    · rw [getCell, setCell, getD_set_self _ _ _ _ hylen, getD_set_ne _ _ _ _ _ hx]
      rfl
    · rw [setCell_oob (by omega)]
  · rw [getCell, setCell, getD_set_ne _ _ _ _ _ (fun h => hy h.symm)]
    rfl

theorem filledCount_setCell {g : List (List Nat)} {n : Nat} (hs : GridShape g n)
    {y x : Nat} (hy : y < n) (hx : x < n) (v : Nat) :
    filledCount (setCell g y x v) + getCell g y x = filledCount g + v := by
  have hylen : y < g.length := by rw [hs.1]; exact hy
  have hxlen : x < (g.getD y []).length := by rw [rowD_length hs hy]; exact hx
  rw [filledCount, setCell, List.map_set]
  have hmaps : y < (g.map List.sum).length := by rw [List.length_map]; exact hylen
  have h1 := sum_set_getD (g.map List.sum) y ((g.getD y []).set x v).sum hmaps
  have h2 := sum_set_getD (g.getD y []) x v hxlen
  have hgd : (g.map List.sum).getD y 0 = (g.getD y []).sum := by
    rw [List.getD_eq_getElem _ _ hmaps, List.getElem_map, ← List.getD_eq_getElem g [] hylen]
  rw [hgd] at h1
  rw [getCell, filledCount]
  omega

/-- `filledCount` as a coordinate count over any fixed enumeration of a
shaped binary grid, per row. -/
theorem filledCount_le_total {g : List (List Nat)} {n : Nat}
    (hs : GridShape g n) (hb : GridBinary g) : filledCount g ≤ n * n := by
  rw [filledCount]
  have hlen : (g.map List.sum).length = n := by rw [List.length_map, hs.1]
  have hbound : ∀ s ∈ g.map List.sum, s ≤ n := by
    intro s hsm
    rcases List.mem_map.mp hsm with ⟨row, hrow, hsum⟩
    have h1 : row.sum = row.countP (fun v => decide (v = 1)) :=
      sum_eq_countP_of_binary row (hb row hrow)
    have h2 : row.countP (fun v => decide (v = 1)) ≤ row.length := List.countP_le_length _
    rw [← hsum, h1]
    rw [hs.2 row hrow] at h2
    exact h2
  calc (g.map List.sum).sum ≤ (g.map List.sum).length * n :=
        List.sum_le_card_nsmul _ n hbound
    _ = n * n := by rw [hlen]

end JsRt

/-! ## Density conformance of the client generator -/

namespace Gemini

open JsRt

theorem initialNoise_shape (seed : Option Int) (size : Nat) (cfg : DifficultySettings) :
    GridShape (initialNoise seed size cfg) size := by
  constructor
  · rw [initialNoise, List.length_map, List.length_range]
  · intro row hrow
    rcases List.mem_map.mp hrow with ⟨y, _, hry⟩
    rw [← hry, List.length_map, List.length_range]

theorem initialNoise_binary (seed : Option Int) (size : Nat) (cfg : DifficultySettings) :
    GridBinary (initialNoise seed size cfg) := by
  intro row hrow v hv
  rcases List.mem_map.mp hrow with ⟨y, _, hry⟩
  rw [← hry] at hv
  rcases List.mem_map.mp hv with ⟨x, _, hvx⟩
  rw [← hvx]
  split <;> omega

theorem coordsList_eq_product (n : Nat) :
    coordsList n = (List.range n) ×ˢ (List.range n) := rfl

theorem coordsList_nodup (n : Nat) : (coordsList n).Nodup := by
  rw [coordsList_eq_product]
  exact (List.nodup_range n).product (List.nodup_range n)

theorem mem_coordsList {n y x : Nat} : (y, x) ∈ coordsList n ↔ y < n ∧ x < n := by
  rw [coordsList_eq_product, List.mem_product, List.mem_range, List.mem_range]

theorem coordsList_length (n : Nat) : (coordsList n).length = n * n := by
  rw [coordsList_eq_product, List.length_product, List.length_range]

theorem jsFloor_toNat_le {q : ℚ} (h1 : q < 1) (m : Nat) :
    (jsFloor (q * ((m + 2 : Nat) : ℚ))).toNat ≤ m + 1 := by
  rw [jsFloor, Int.toNat_le]
  have hq : q * ((m + 2 : Nat) : ℚ) < ((m + 2 : Nat) : ℚ) := by
    have hpos : (0 : ℚ) < ((m + 2 : Nat) : ℚ) := by positivity
    calc q * ((m + 2 : Nat) : ℚ) < 1 * ((m + 2 : Nat) : ℚ) :=
          mul_lt_mul_of_pos_right h1 hpos
      _ = ((m + 2 : Nat) : ℚ) := one_mul _
  have hle : (⌊q * ((m + 2 : Nat) : ℚ)⌋ : ℚ) < ((m + 2 : Nat) : ℚ) :=
    lt_of_le_of_lt (Int.floor_le _) hq
  have hlt : ⌊q * ((m + 2 : Nat) : ℚ)⌋ < ((m + 2 : Nat) : Int) := by exact_mod_cast hle
  omega

theorem fisherYatesAux_perm (seed : Option Int) :
    ∀ (cnt k : Nat) (arr : List (Nat × Nat)), cnt < arr.length →
      (fisherYatesAux seed k cnt arr).Perm arr := by
  intro cnt
  induction cnt with
  | zero => intro k arr _; rfl
  | succ n ih =>
      intro k arr hlen
      rw [fisherYatesAux]
      have hj : (jsFloor (rngAt seed k * (n + 2 : Nat))).toNat ≤ n + 1 :=
        jsFloor_toNat_le (JsRt.mulberryOut_lt_one seed k) n
      set j := (jsFloor (rngAt seed k * (n + 2 : Nat))).toNat with hjdef
      have hswap : (listSwap arr (n + 1) j).Perm arr := by
        rw [listSwap]
        exact listSwap_perm arr (n + 1) j hlen (by omega)
      have hlen2 : n < (listSwap arr (n + 1) j).length := by
        rw [listSwap, List.length_set, List.length_set]
        omega
      exact (ih (k + 1) _ hlen2).trans hswap

theorem shuffledCoords_perm (seed : Option Int) (size : Nat) :
    (shuffledCoords seed size).Perm (coordsList size) := by
  rw [shuffledCoords]
  cases size with
  | zero => rfl
  | succ m =>
      apply fisherYatesAux_perm
      rw [coordsList_length]
      have h1 : 1 ≤ (m + 1) * (m + 1) := Nat.one_le_iff_ne_zero.mpr (by positivity)
      omega

theorem flipDown_shape :
    ∀ (l : List (Nat × Nat)) (g : List (List Nat)) (d n : Nat),
      GridShape g n → GridShape (flipDown l g d) n := by
  intro l
  induction l with
  | nil => intro g d n hs; cases d <;> simpa [flipDown]
  | cons p rest ih =>
      intro g d n hs
      obtain ⟨y, x⟩ := p
      cases d with
      | zero => simpa [flipDown]
      | succ d =>
          rw [flipDown]
          split
          · exact ih _ _ _ (gridShape_setCell hs y x 0)
          · exact ih _ _ _ hs

theorem flipUp_shape :
    ∀ (l : List (Nat × Nat)) (g : List (List Nat)) (d n : Nat),
      GridShape g n → GridShape (flipUp l g d) n := by
  intro l
  induction l with
  | nil => intro g d n hs; cases d <;> simpa [flipUp]
  | cons p rest ih =>
      intro g d n hs
      obtain ⟨y, x⟩ := p
      cases d with
      | zero => simpa [flipUp]
      | succ d =>
          rw [flipUp]
          split
          · exact ih _ _ _ (gridShape_setCell hs y x 1)
          · exact ih _ _ _ hs

theorem flipDown_binary :
    ∀ (l : List (Nat × Nat)) (g : List (List Nat)) (d : Nat),
      GridBinary g → GridBinary (flipDown l g d) := by
  intro l
  induction l with
  | nil => intro g d hb; cases d <;> simpa [flipDown]
  | cons p rest ih =>
      intro g d hb
      obtain ⟨y, x⟩ := p
      cases d with
      | zero => simpa [flipDown]
      | succ d =>
          rw [flipDown]
          split
          · exact ih _ _ (gridBinary_setCell hb y x 0 (by omega))
          · exact ih _ _ hb

theorem flipUp_binary :
    ∀ (l : List (Nat × Nat)) (g : List (List Nat)) (d : Nat),
      GridBinary g → GridBinary (flipUp l g d) := by
  intro l
  induction l with
  | nil => intro g d hb; cases d <;> simpa [flipUp]
  | cons p rest ih =>
      intro g d hb
      obtain ⟨y, x⟩ := p
      cases d with
      | zero => simpa [flipUp]
      | succ d =>
          rw [flipUp]
          split
          · exact ih _ _ (gridBinary_setCell hb y x 1 (by omega))
          · exact ih _ _ hb

/-- Walking a duplicate-free list of in-range coordinates holding at
least `d` filled cells, the `diff > 0` pass removes exactly `d` of them. -/
theorem flipDown_filledCount {n : Nat} :
    ∀ (l : List (Nat × Nat)) (g : List (List Nat)) (d : Nat),
      GridShape g n → l.Nodup → (∀ q ∈ l, q.1 < n ∧ q.2 < n) →
      d ≤ l.countP (fun q => decide (getCell g q.1 q.2 = 1)) →
      filledCount (flipDown l g d) + d = filledCount g := by
  intro l
  induction l with
  | nil =>
      intro g d hs _ _ hd
      simp only [List.countP_nil, Nat.le_zero] at hd
      subst hd
      rw [flipDown]
      omega
  | cons p rest ih =>
      intro g d hs hnd hmem hd
      obtain ⟨y, x⟩ := p
      have hy : y < n := (hmem (y, x) (List.mem_cons_self _ _)).1
      have hx : x < n := (hmem (y, x) (List.mem_cons_self _ _)).2
      cases d with
      | zero => rw [flipDown]; omega
      | succ d =>
          rw [flipDown]
          rw [List.countP_cons] at hd
          by_cases hc : getCell g y x = 1
          · rw [if_pos hc]
            have hset := filledCount_setCell hs hy hx 0
            rw [hc] at hset
            have hcount : rest.countP
                (fun q => decide (getCell (setCell g y x 0) q.1 q.2 = 1)) =
                rest.countP (fun q => decide (getCell g q.1 q.2 = 1)) := by
              apply List.countP_congr
              intro q hq
              have hqne : q ≠ (y, x) := by
                intro h
                subst h
                exact (List.nodup_cons.mp hnd).1 hq
              rw [getCell_setCell_ne hqne]
            have hrest : d ≤ rest.countP
                (fun q => decide (getCell (setCell g y x 0) q.1 q.2 = 1)) := by
              rw [hcount]
              simp [hc] at hd
              omega
            have := ih (setCell g y x 0) d (gridShape_setCell hs y x 0)
              (List.nodup_cons.mp hnd).2
              (fun q hq => hmem q (List.mem_cons_of_mem _ hq)) hrest
            omega
          · rw [if_neg hc]
            have hdle : d + 1 ≤ rest.countP (fun q => decide (getCell g q.1 q.2 = 1)) := by
              simp [hc] at hd
              omega
            exact ih g (d + 1) hs (List.nodup_cons.mp hnd).2
              (fun q hq => hmem q (List.mem_cons_of_mem _ hq)) hdle

/-- Dually, the `diff < 0` pass adds exactly `d` filled cells when the
list holds at least `d` empty ones. -/
theorem flipUp_filledCount {n : Nat} :
    ∀ (l : List (Nat × Nat)) (g : List (List Nat)) (d : Nat),
      GridShape g n → l.Nodup → (∀ q ∈ l, q.1 < n ∧ q.2 < n) →
      d ≤ l.countP (fun q => decide (getCell g q.1 q.2 = 0)) →
      filledCount (flipUp l g d) = filledCount g + d := by
  intro l
  induction l with
  | nil =>
      intro g d hs _ _ hd
      simp only [List.countP_nil, Nat.le_zero] at hd
      subst hd
      rw [flipUp]
      omega
  | cons p rest ih =>
      intro g d hs hnd hmem hd
      obtain ⟨y, x⟩ := p
      have hy : y < n := (hmem (y, x) (List.mem_cons_self _ _)).1
      have hx : x < n := (hmem (y, x) (List.mem_cons_self _ _)).2
      cases d with
      | zero => rw [flipUp]; omega
      | succ d =>
          rw [flipUp]
          rw [List.countP_cons] at hd
          by_cases hc : getCell g y x = 0
          · rw [if_pos hc]
            have hset := filledCount_setCell hs hy hx 1
            rw [hc] at hset
            have hcount : rest.countP
                (fun q => decide (getCell (setCell g y x 1) q.1 q.2 = 0)) =
                rest.countP (fun q => decide (getCell g q.1 q.2 = 0)) := by
              apply List.countP_congr
              intro q hq
              have hqne : q ≠ (y, x) := by
                intro h
                subst h
                exact (List.nodup_cons.mp hnd).1 hq
              rw [getCell_setCell_ne hqne]
            have hrest : d ≤ rest.countP
                (fun q => decide (getCell (setCell g y x 1) q.1 q.2 = 0)) := by
              rw [hcount]
              simp [hc] at hd
              omega
            have := ih (setCell g y x 1) d (gridShape_setCell hs y x 1)
              (List.nodup_cons.mp hnd).2
              (fun q hq => hmem q (List.mem_cons_of_mem _ hq)) hrest
            omega
          · rw [if_neg hc]
            have hdle : d + 1 ≤ rest.countP (fun q => decide (getCell g q.1 q.2 = 0)) := by
              simp [hc] at hd
              omega
            exact ih g (d + 1) hs (List.nodup_cons.mp hnd).2
              (fun q hq => hmem q (List.mem_cons_of_mem _ hq)) hdle

/-- Coordinate count of filled cells over the row-major enumeration. -/
theorem countP_coordsList_filled {g : List (List Nat)} {n : Nat}
    (hs : GridShape g n) (hb : GridBinary g) :
    (coordsList n).countP (fun q => decide (getCell g q.1 q.2 = 1)) = filledCount g := by
  rw [coordsList, List.countP_flatMap]
  have hrow : ∀ y < n,
      ((fun l => List.countP (fun q => decide (getCell g q.1 q.2 = 1)) l) ∘
        fun y => (List.range n).map (fun x => (y, x))) y = (g.getD y []).sum := by
    intro y hy
    simp only [Function.comp_apply, List.countP_map]
    have hcomp : ((fun q : Nat × Nat => decide (getCell g q.1 q.2 = 1)) ∘ fun x => (y, x)) =
        fun x => decide ((g.getD y []).getD x 0 = 1) := rfl
    rw [hcomp]
    have hlen : (g.getD y []).length = n := rowD_length hs hy
    have hbin : ∀ v ∈ g.getD y [], v ≤ 1 := hb _ (rowD_mem hs hy)
    rw [sum_eq_countP_of_binary _ hbin]
    conv_rhs => rw [← range_map_getD (g.getD y []) 0]
    rw [List.countP_map, hlen]
    rfl
  have hmapeq : (List.range n).map
      ((fun l => List.countP (fun q => decide (getCell g q.1 q.2 = 1)) l) ∘
        fun y => (List.range n).map (fun x => (y, x))) =
      (List.range n).map (fun y => (g.getD y []).sum) := by
    apply List.map_congr_left
    intro y hy
    exact hrow y (List.mem_range.mp hy)
  rw [hmapeq, filledCount]
  have hglen : (List.range n).map (fun y => (g.getD y []).sum) = g.map List.sum := by
    have hdiag : (List.range g.length).map (fun y => g.getD y []) = g := range_map_getD g []
    calc (List.range n).map (fun y => (g.getD y []).sum)
        = (List.range g.length).map (List.sum ∘ fun y => g.getD y []) := by rw [hs.1]; rfl
      _ = ((List.range g.length).map (fun y => g.getD y [])).map List.sum := by
          rw [List.map_map]
      _ = g.map List.sum := by rw [hdiag]
  rw [hglen]

/-- On coordinates holding binary cells, the zero-count and one-count
partition the list. -/
theorem countP_cells_split (g : List (List Nat)) :
    ∀ l : List (Nat × Nat), (∀ q ∈ l, getCell g q.1 q.2 ≤ 1) →
      l.countP (fun q => decide (getCell g q.1 q.2 = 0)) +
        l.countP (fun q => decide (getCell g q.1 q.2 = 1)) = l.length := by
  intro l
  induction l with
  | nil => intro _; rfl
  | cons q rest ihq =>
      intro h1
      rw [List.countP_cons, List.countP_cons, List.length_cons]
      have hq1 := h1 q (List.mem_cons_self _ _)
      have ihr := ihq (fun q hq => h1 q (List.mem_cons_of_mem _ hq))
      interval_cases h : getCell g q.1 q.2 <;> simp [h] <;> omega

/-- Coordinate count of empty cells over the row-major enumeration. -/
theorem countP_coordsList_empty {g : List (List Nat)} {n : Nat}
    (hs : GridShape g n) (hb : GridBinary g) :
    (coordsList n).countP (fun q => decide (getCell g q.1 q.2 = 0)) + filledCount g = n * n := by
  have h1 : ∀ q ∈ coordsList n, getCell g q.1 q.2 ≤ 1 := by
    intro q hq
    obtain ⟨y, x⟩ := q
    have hy : y < n := (mem_coordsList.mp hq).1
    have hbin : ∀ v ∈ g.getD y [], v ≤ 1 := hb _ (rowD_mem hs hy)
    have hx : x < (g.getD y []).length := by rw [rowD_length hs hy]; exact (mem_coordsList.mp hq).2
    exact hbin _ (by
      rw [getCell, List.getD_eq_getElem _ 0 hx]
      exact List.getElem_mem hx)
  have hsplit := countP_cells_split g (coordsList n) h1
  rw [countP_coordsList_filled hs hb] at hsplit
  rw [coordsList_length] at hsplit
  omega

theorem targetDensity_nonneg (seed : Option Int) (cfg : DifficultySettings)
    (h0 : 0 ≤ cfg.minDensity) (h1 : cfg.minDensity ≤ cfg.maxDensity) :
    0 ≤ targetDensity seed cfg := by
  rw [targetDensity]
  have hr := JsRt.mulberryOut_nonneg seed 0
  have : 0 ≤ rngAt seed 0 * (cfg.maxDensity - cfg.minDensity) := by
    apply mul_nonneg hr
    linarith
  linarith

theorem targetDensity_le_one (seed : Option Int) (cfg : DifficultySettings)
    (h1 : cfg.minDensity ≤ cfg.maxDensity) (h2 : cfg.maxDensity ≤ 1) :
    targetDensity seed cfg ≤ 1 := by
  rw [targetDensity]
  have hr1 : rngAt seed 0 < 1 := JsRt.mulberryOut_lt_one seed 0
  have hr0 : 0 ≤ rngAt seed 0 := JsRt.mulberryOut_nonneg seed 0
  have hmul : rngAt seed 0 * (cfg.maxDensity - cfg.minDensity) ≤
      cfg.maxDensity - cfg.minDensity := by
    apply mul_le_of_le_one_left
    · linarith
    · linarith
  linarith

theorem targetFillCount_le_total (seed : Option Int) (size : Nat)
    (cfg : DifficultySettings) (hd : targetDensity seed cfg ≤ 1) :
    targetFillCount seed size cfg ≤ size * size := by
  rw [targetFillCount, JsRt.jsFloor, Int.toNat_le]
  have hle : ((size * size : Nat) : ℚ) * targetDensity seed cfg ≤ ((size * size : Nat) : ℚ) := by
    have h0 : (0 : ℚ) ≤ ((size * size : Nat) : ℚ) := by positivity
    calc ((size * size : Nat) : ℚ) * targetDensity seed cfg
        ≤ ((size * size : Nat) : ℚ) * 1 := by
          exact mul_le_mul_of_nonneg_left hd h0
      _ = ((size * size : Nat) : ℚ) := mul_one _
  calc ⌊((size * size : Nat) : ℚ) * targetDensity seed cfg⌋
      ≤ ⌊((size * size : Nat) : ℚ)⌋ := Int.floor_le_floor hle
    _ = ((size * size : Nat) : Int) := Int.floor_natCast _

/-- After the density-correction pass the filled-cell count equals the
drawn target exactly (for any density band inside `[0, 1]`). -/
theorem densityCorrected_filledCount (seed : Option Int) (size : Nat)
    (cfg : DifficultySettings) (h0 : 0 ≤ cfg.minDensity)
    (h1 : cfg.minDensity ≤ cfg.maxDensity) (h2 : cfg.maxDensity ≤ 1) :
    JsRt.filledCount (densityCorrected seed size cfg) = targetFillCount seed size cfg := by
  have hs := initialNoise_shape seed size cfg
  have hb := initialNoise_binary seed size cfg
  have hcntle : JsRt.filledCount (initialNoise seed size cfg) ≤ size * size :=
    JsRt.filledCount_le_total hs hb
  have htle : targetFillCount seed size cfg ≤ size * size :=
    targetFillCount_le_total seed size cfg (targetDensity_le_one seed cfg h1 h2)
  have hperm := shuffledCoords_perm seed size
  have hnd : (shuffledCoords seed size).Nodup :=
    (coordsList_nodup size).perm hperm.symm
  have hmem : ∀ q ∈ shuffledCoords seed size, q.1 < size ∧ q.2 < size := by
    intro q hq
    have : q ∈ coordsList size := hperm.mem_iff.mp hq
    obtain ⟨y, x⟩ := q
    exact mem_coordsList.mp this
  have hcfill : (shuffledCoords seed size).countP
      (fun q => decide (JsRt.getCell (initialNoise seed size cfg) q.1 q.2 = 1)) =
      JsRt.filledCount (initialNoise seed size cfg) := by
    rw [hperm.countP_eq]
    exact countP_coordsList_filled hs hb
  have hcempty : (shuffledCoords seed size).countP
      (fun q => decide (JsRt.getCell (initialNoise seed size cfg) q.1 q.2 = 0)) +
      JsRt.filledCount (initialNoise seed size cfg) = size * size := by
    rw [hperm.countP_eq]
    exact countP_coordsList_empty hs hb
  rw [densityCorrected]
  set cnt := JsRt.filledCount (initialNoise seed size cfg) with hcnt
  set tgt := targetFillCount seed size cfg with htgt
  by_cases hpos : (0 : Int) < (cnt : Int) - tgt
  · simp only [hpos, if_true]
    have hdle : ((cnt : Int) - tgt).toNat ≤ (shuffledCoords seed size).countP
        (fun q => decide (JsRt.getCell (initialNoise seed size cfg) q.1 q.2 = 1)) := by
      rw [hcfill]
      omega
    have := flipDown_filledCount (shuffledCoords seed size)
      (initialNoise seed size cfg) ((cnt : Int) - tgt).toNat hs hnd hmem hdle
    omega
  · simp only [hpos, if_false]
    by_cases hneg : ((cnt : Int) - tgt) < 0
    · simp only [hneg, if_true]
      have hdle : (-((cnt : Int) - tgt)).toNat ≤ (shuffledCoords seed size).countP
          (fun q => decide (JsRt.getCell (initialNoise seed size cfg) q.1 q.2 = 0)) := by
        omega
      have := flipUp_filledCount (shuffledCoords seed size)
        (initialNoise seed size cfg) (-((cnt : Int) - tgt)).toNat hs hnd hmem hdle
      omega
    · simp only [hneg, if_false]
      omega

/-- The step 3 safety check never fires on a corrected grid, so the
returned grid keeps the exact target count. -/
theorem generatePuzzle_filledCount (seed : Option Int) (size : Nat)
    (cfg : DifficultySettings) (h0 : 0 ≤ cfg.minDensity)
    (h1 : cfg.minDensity ≤ cfg.maxDensity) (h2 : cfg.maxDensity ≤ 1) :
    JsRt.filledCount (generatePuzzle seed size cfg) = targetFillCount seed size cfg := by
  have hcorr := densityCorrected_filledCount seed size cfg h0 h1 h2
  rw [generatePuzzle, safetyChecked]
  have hguard1 : ¬(JsRt.filledCount (densityCorrected seed size cfg) = 0 ∧
      0 < targetFillCount seed size cfg) := by
    rw [hcorr]
    omega
  have hguard2 : ¬(JsRt.filledCount (densityCorrected seed size cfg) = size * size ∧
      targetFillCount seed size cfg < size * size) := by
    rw [hcorr]
    omega
  simp only [hguard1, hguard2, if_false]
  exact hcorr

end Gemini

/-! ## Validator evaluation lemmas -/

namespace ValidationJs

open JsRt

/-- On a well-formed three-field identifier with a known difficulty key
and a usable size, `validateSolution` reduces to the bounds check, the
elapsed-time check and the grid comparison. -/
theorem validateSolution_eval (pid : String) (history : List Move)
    (sizeStr diffStr seedStr : String) (szI : Int) (cfg : DensityRange)
    (hsplit : pid.splitOn ":" = [sizeStr, diffStr, seedStr])
    (hsz : parseIntJS sizeStr = some szI)
    (hszr : 0 ≤ szI ∧ szI < 4294967296)
    (hcfg : DIFFICULTY_CONFIG (sanitizeKey diffStr) = some cfg)
    (hne : history ≠ []) :
    validateSolution pid history =
      (if history.any (fun m => decide (outOfBounds szI.toNat m)) then Except.ok false
       else if (history.getLastD default).time - (history.headD default).time < 0 then
         Except.ok false
       else if 0 < errorCount szI.toNat
           (generateTargetGrid (parseIntJS seedStr) szI.toNat cfg)
           (replayGrid szI.toNat history) then Except.ok false
       else Except.ok true) := by
  have hne2 : history.isEmpty = false := by
    cases history with
    | nil => exact absurd rfl hne
    | cons a t => rfl
  rw [validateSolution]
  rw [if_neg (by rw [hne2]; exact Bool.false_ne_true)]
  rw [hsplit]
  simp only [List.getD_cons_zero, List.getElem?_cons_succ, List.getElem?_cons_zero]
  rw [hcfg]
  simp only [hsz, Option.getD_some]
  have hva : validArrayLength (some szI) := hszr
  rw [if_pos hva]

/-- The discrepancy counter vanishes exactly when no cell mismatches. -/
theorem errorCount_eq_zero_iff (size : Nat) (target : List (List Nat))
    (user : List (List Int)) :
    errorCount size target user = 0 ↔
      ∀ r < size, ∀ c < size, ¬ cellMismatch (getCell target r c) (getCellI user r c) := by
  rw [errorCount, List.sum_eq_zero_iff]
  constructor
  · intro hall r hr c hc hmis
    have hrow := hall _ (List.mem_map.mpr ⟨r, List.mem_range.mpr hr, rfl⟩)
    rw [List.sum_eq_zero_iff] at hrow
    have hcell := hrow _ (List.mem_map.mpr ⟨c, List.mem_range.mpr hc, rfl⟩)
    rw [if_pos hmis] at hcell
    exact one_ne_zero hcell
  · intro hall s hs
    rcases List.mem_map.mp hs with ⟨r, hr, hrs⟩
    rw [← hrs, List.sum_eq_zero_iff]
    intro t ht
    rcases List.mem_map.mp ht with ⟨c, hc, hct⟩
    rw [← hct, if_neg (hall r (List.mem_range.mp hr) c (List.mem_range.mp hc))]

/-- The complement of a cell mismatch, spelled as the two positive
conditions of the spec. -/
theorem not_cellMismatch_iff (t : Nat) (u : Int) :
    ¬ cellMismatch t u ↔ (t = 1 → u = FILLED) ∧ (t = 0 → u ≠ FILLED) := by
  rw [cellMismatch]
  tauto

/-- An empty history is rejected before any parsing. -/
theorem validateSolution_nil (pid : String) :
    validateSolution pid [] = Except.ok false := rfl

/-- Fewer than two `':'`-separated fields: `diffStr` is `undefined` and
the `.replace` call throws. -/
theorem validateSolution_short_id (pid : String) (history : List Move)
    (hne : history ≠ []) (hlen : (pid.splitOn ":").length < 2) :
    validateSolution pid history = Except.error "TypeError: diffStr is undefined" := by
  have hne2 : history.isEmpty = false := by
    cases history with
    | nil => exact absurd rfl hne
    | cons a t => rfl
  simp only [validateSolution]
  rw [if_neg (by rw [hne2]; exact Bool.false_ne_true)]
  have hnone : (pid.splitOn ":")[1]? = none := by
    rw [List.getElem?_eq_none]
    omega
  rw [hnone]

/-- An unknown (sanitized) difficulty key yields `false` without
touching the grid machinery. -/
theorem validateSolution_unknown_key (pid : String) (history : List Move)
    (hne : history ≠ []) (hlen : 2 ≤ (pid.splitOn ":").length)
    (hcfg : DIFFICULTY_CONFIG (sanitizeKey ((pid.splitOn ":").getD 1 "")) = none) :
    validateSolution pid history = Except.ok false := by
  have hne2 : history.isEmpty = false := by
    cases history with
    | nil => exact absurd rfl hne
    | cons a t => rfl
  simp only [validateSolution]
  rw [if_neg (by rw [hne2]; exact Bool.false_ne_true)]
  have hsome : (pid.splitOn ":")[1]? = some ((pid.splitOn ":").getD 1 "") := by
    have h1 : 1 < (pid.splitOn ":").length := by omega
    rw [List.getElem?_eq_getElem h1, List.getD_eq_getElem _ _ h1]
  rw [hsome]
  simp only [hcfg]

/-- A known key combined with an unusable size: `Array(size)` throws
`RangeError` inside `generateTargetGrid`. -/
theorem validateSolution_bad_size (pid : String) (history : List Move) (cfg : DensityRange)
    (hne : history ≠ []) (hlen : 2 ≤ (pid.splitOn ":").length)
    (hcfg : DIFFICULTY_CONFIG (sanitizeKey ((pid.splitOn ":").getD 1 "")) = some cfg)
    (hva : ¬ validArrayLength (parseIntJS ((pid.splitOn ":").getD 0 ""))) :
    validateSolution pid history = Except.error "RangeError: Invalid array length" := by
  have hne2 : history.isEmpty = false := by
    cases history with
    | nil => exact absurd rfl hne
    | cons a t => rfl
  simp only [validateSolution]
  rw [if_neg (by rw [hne2]; exact Bool.false_ne_true)]
  have hsome : (pid.splitOn ":")[1]? = some ((pid.splitOn ":").getD 1 "") := by
    have h1 : 1 < (pid.splitOn ":").length := by omega
    rw [List.getElem?_eq_getElem h1, List.getD_eq_getElem _ _ h1]
  rw [hsome]
  simp only [hcfg]
  rw [if_neg hva]

/-- A known key with a usable size always reaches one of the four
`Except.ok` exits: no exception escapes this path. -/
theorem validateSolution_ok_of_wellformed (pid : String) (history : List Move)
    (cfg : DensityRange)
    (hne : history ≠ []) (hlen : 2 ≤ (pid.splitOn ":").length)
    (hcfg : DIFFICULTY_CONFIG (sanitizeKey ((pid.splitOn ":").getD 1 "")) = some cfg)
    (hva : validArrayLength (parseIntJS ((pid.splitOn ":").getD 0 ""))) :
    ∃ b, validateSolution pid history = Except.ok b := by
  have hne2 : history.isEmpty = false := by
    cases history with
    | nil => exact absurd rfl hne
    | cons a t => rfl
  simp only [validateSolution]
  rw [if_neg (by rw [hne2]; exact Bool.false_ne_true)]
  have hsome : (pid.splitOn ":")[1]? = some ((pid.splitOn ":").getD 1 "") := by
    have h1 : 1 < (pid.splitOn ":").length := by omega
    rw [List.getElem?_eq_getElem h1, List.getD_eq_getElem _ _ h1]
  rw [hsome]
  simp only [hcfg]
  rw [if_pos hva]
  split
  · exact ⟨false, rfl⟩
  · split
    · exact ⟨false, rfl⟩
    · split
      · exact ⟨false, rfl⟩
      · exact ⟨true, rfl⟩

end ValidationJs

/-- C3: on a well-parsed identifier with a known difficulty key, an
in-bounds move history whose last timestamp is not before its first,
`validateSolution` answers `true` exactly when the replayed grid is
`FILLED` on every regenerated target cell and on no other cell, and
`false` exactly otherwise. -/
theorem c3_validator_grid_comparison (pid : String) (history : List ValidationJs.Move)
    (sizeStr diffStr seedStr : String) (szI : Int) (cfg : ValidationJs.DensityRange)
    (hsplit : pid.splitOn ":" = [sizeStr, diffStr, seedStr])
    (hsz : JsRt.parseIntJS sizeStr = some szI)
    (hszr : 0 ≤ szI ∧ szI < 4294967296)
    (hcfg : ValidationJs.DIFFICULTY_CONFIG (JsRt.sanitizeKey diffStr) = some cfg)
    (hne : history ≠ [])
    (hbounds : ∀ m ∈ history, ¬ ValidationJs.outOfBounds szI.toNat m)
    (htime : (history.headD default).time ≤ (history.getLastD default).time) :
    (ValidationJs.validateSolution pid history = Except.ok true ↔
      (∀ r < szI.toNat, ∀ c < szI.toNat,
        (JsRt.getCell (ValidationJs.generateTargetGrid (JsRt.parseIntJS seedStr)
            szI.toNat cfg) r c = 1 →
          JsRt.getCellI (ValidationJs.replayGrid szI.toNat history) r c =
            ValidationJs.FILLED) ∧
        (JsRt.getCell (ValidationJs.generateTargetGrid (JsRt.parseIntJS seedStr)
            szI.toNat cfg) r c = 0 →
          JsRt.getCellI (ValidationJs.replayGrid szI.toNat history) r c ≠
            ValidationJs.FILLED))) ∧
    (ValidationJs.validateSolution pid history = Except.ok false ↔
      ¬ (∀ r < szI.toNat, ∀ c < szI.toNat,
        (JsRt.getCell (ValidationJs.generateTargetGrid (JsRt.parseIntJS seedStr)
            szI.toNat cfg) r c = 1 →
          JsRt.getCellI (ValidationJs.replayGrid szI.toNat history) r c =
            ValidationJs.FILLED) ∧
        (JsRt.getCell (ValidationJs.generateTargetGrid (JsRt.parseIntJS seedStr)
            szI.toNat cfg) r c = 0 →
          JsRt.getCellI (ValidationJs.replayGrid szI.toNat history) r c ≠
            ValidationJs.FILLED))) := by
  rw [ValidationJs.validateSolution_eval pid history sizeStr diffStr seedStr szI cfg
    hsplit hsz hszr hcfg hne]
  have hany : (history.any (fun m => decide (ValidationJs.outOfBounds szI.toNat m))) = false := by
    rw [List.any_eq_false]
    intro m hm
    simpa using hbounds m hm
  rw [if_neg (by rw [hany]; exact Bool.false_ne_true)]
  rw [if_neg (not_lt.mpr (by linarith))]
  have hMatch : (∀ r < szI.toNat, ∀ c < szI.toNat,
      ¬ ValidationJs.cellMismatch
        (JsRt.getCell (ValidationJs.generateTargetGrid (JsRt.parseIntJS seedStr)
          szI.toNat cfg) r c)
        (JsRt.getCellI (ValidationJs.replayGrid szI.toNat history) r c)) ↔
      (∀ r < szI.toNat, ∀ c < szI.toNat,
        (JsRt.getCell (ValidationJs.generateTargetGrid (JsRt.parseIntJS seedStr)
            szI.toNat cfg) r c = 1 →
          JsRt.getCellI (ValidationJs.replayGrid szI.toNat history) r c =
            ValidationJs.FILLED) ∧
        (JsRt.getCell (ValidationJs.generateTargetGrid (JsRt.parseIntJS seedStr)
            szI.toNat cfg) r c = 0 →
          JsRt.getCellI (ValidationJs.replayGrid szI.toNat history) r c ≠
            ValidationJs.FILLED)) := by
    apply forall_congr'
    intro r
    apply forall_congr'
    intro hr
    apply forall_congr'
    intro c
    apply forall_congr'
    intro hc
    exact ValidationJs.not_cellMismatch_iff _ _
  by_cases herr : 0 < ValidationJs.errorCount szI.toNat
      (ValidationJs.generateTargetGrid (JsRt.parseIntJS seedStr) szI.toNat cfg)
      (ValidationJs.replayGrid szI.toNat history)
  · rw [if_pos herr]
    have hnm : ¬ (∀ r < szI.toNat, ∀ c < szI.toNat,
        ¬ ValidationJs.cellMismatch
          (JsRt.getCell (ValidationJs.generateTargetGrid (JsRt.parseIntJS seedStr)
            szI.toNat cfg) r c)
          (JsRt.getCellI (ValidationJs.replayGrid szI.toNat history) r c)) := by
      rw [← ValidationJs.errorCount_eq_zero_iff]
      omega
    rw [hMatch] at hnm
    constructor
    · constructor
      · intro he
        exact absurd he (by simp)
      · intro hm
        exact absurd hm hnm
    · constructor
      · intro _
        exact hnm
      · intro _
        rfl
  · rw [if_neg herr]
    have hm : (∀ r < szI.toNat, ∀ c < szI.toNat,
        ¬ ValidationJs.cellMismatch
          (JsRt.getCell (ValidationJs.generateTargetGrid (JsRt.parseIntJS seedStr)
            szI.toNat cfg) r c)
          (JsRt.getCellI (ValidationJs.replayGrid szI.toNat history) r c)) := by
      rw [← ValidationJs.errorCount_eq_zero_iff]
      omega
    rw [hMatch] at hm
    constructor
    · constructor
      · intro _
        exact hm
      · intro _
        rfl
    · constructor
      · intro he
        exact absurd he (by simp)
      · intro hnm
        exact absurd hm hnm

/-- Witness for C3: the identifier `"2:MEDIUM:7"` with the history that
fills exactly the two target cells of its regenerated grid validates. -/
theorem c3_validator_grid_comparison_witness :
    ("2:MEDIUM:7".splitOn ":" = ["2", "MEDIUM", "7"] ∧
     JsRt.parseIntJS "2" = some 2 ∧
     ((0 : Int) ≤ 2 ∧ (2 : Int) < 4294967296) ∧
     ValidationJs.DIFFICULTY_CONFIG (JsRt.sanitizeKey "MEDIUM") = some ⟨0.53, 0.58⟩ ∧
     ([⟨0, 0, 1, 0⟩, ⟨1, 1, 1, 100⟩] : List ValidationJs.Move) ≠ []) ∧
    ValidationJs.validateSolution "2:MEDIUM:7"
      [⟨0, 0, 1, 0⟩, ⟨1, 1, 1, 100⟩] = Except.ok true :=
  ⟨⟨by with_unfolding_all decide, by with_unfolding_all decide, by decide,
    by with_unfolding_all decide, by with_unfolding_all decide⟩,
   (c3_validator_grid_comparison "2:MEDIUM:7" [⟨0, 0, 1, 0⟩, ⟨1, 1, 1, 100⟩]
      "2" "MEDIUM" "7" 2 ⟨0.53, 0.58⟩
      (by with_unfolding_all decide) (by with_unfolding_all decide) (by decide)
      (by with_unfolding_all decide) (by with_unfolding_all decide)
      (by with_unfolding_all decide) (by with_unfolding_all decide)).1.mpr
    (by with_unfolding_all decide)⟩

/-- C5 (corrected): `validateSolution` returns `false` synchronously for
out-of-range moves and unrecognized difficulty keys, but a malformed
puzzle identifier can make it throw instead: the result is an exception
exactly when the history is non-empty and either the identifier has
fewer than two `':'` fields (`undefined.replace` raises `TypeError`) or
a recognized key is paired with an unusable size (`Array(size)` raises
`RangeError`). -/
theorem c5_invalid_input_handling :
    (∀ (pid : String) (history : List ValidationJs.Move),
      (∃ e, ValidationJs.validateSolution pid history = Except.error e) ↔
        (history ≠ [] ∧
          ((pid.splitOn ":").length < 2 ∨
           (2 ≤ (pid.splitOn ":").length ∧
            (∃ cfg, ValidationJs.DIFFICULTY_CONFIG
              (JsRt.sanitizeKey ((pid.splitOn ":").getD 1 "")) = some cfg) ∧
            ¬ ValidationJs.validArrayLength
              (JsRt.parseIntJS ((pid.splitOn ":").getD 0 "")))))) ∧
    (∀ (pid : String) (history : List ValidationJs.Move),
      history ≠ [] → 2 ≤ (pid.splitOn ":").length →
      ValidationJs.DIFFICULTY_CONFIG
        (JsRt.sanitizeKey ((pid.splitOn ":").getD 1 "")) = none →
      ValidationJs.validateSolution pid history = Except.ok false) ∧
    (∀ (pid : String) (history : List ValidationJs.Move)
      (sizeStr diffStr seedStr : String) (szI : Int) (cfg : ValidationJs.DensityRange),
      pid.splitOn ":" = [sizeStr, diffStr, seedStr] →
      JsRt.parseIntJS sizeStr = some szI →
      (0 ≤ szI ∧ szI < 4294967296) →
      ValidationJs.DIFFICULTY_CONFIG (JsRt.sanitizeKey diffStr) = some cfg →
      history ≠ [] →
      (∃ m ∈ history, ValidationJs.outOfBounds szI.toNat m) →
      ValidationJs.validateSolution pid history = Except.ok false) := by
  refine ⟨?_, ?_, ?_⟩
  · intro pid history
    constructor
    · rintro ⟨e, he⟩
      by_cases hh : history = []
      · subst hh
        rw [ValidationJs.validateSolution_nil] at he
        exact absurd he (by simp)
      refine ⟨hh, ?_⟩
      by_cases hlen : (pid.splitOn ":").length < 2
      · exact Or.inl hlen
      have hlen2 : 2 ≤ (pid.splitOn ":").length := by omega
      cases hcl : ValidationJs.DIFFICULTY_CONFIG
          (JsRt.sanitizeKey ((pid.splitOn ":").getD 1 "")) with
      | none =>
          rw [ValidationJs.validateSolution_unknown_key pid history hh hlen2 hcl] at he
          exact absurd he (by simp)
      | some cfg =>
          by_cases hva : ValidationJs.validArrayLength
              (JsRt.parseIntJS ((pid.splitOn ":").getD 0 ""))
          · rcases ValidationJs.validateSolution_ok_of_wellformed pid history cfg
                hh hlen2 hcl hva with ⟨b, hb⟩
            rw [hb] at he
            exact absurd he (by simp)
          · exact Or.inr ⟨hlen2, ⟨cfg, rfl⟩, hva⟩
    · rintro ⟨hh, hlen | ⟨hlen2, ⟨cfg, hcl⟩, hva⟩⟩
      · exact ⟨_, ValidationJs.validateSolution_short_id pid history hh hlen⟩
      · exact ⟨_, ValidationJs.validateSolution_bad_size pid history cfg hh hlen2 hcl hva⟩
  · intro pid history hh hlen hcl
    exact ValidationJs.validateSolution_unknown_key pid history hh hlen hcl
  · intro pid history sizeStr diffStr seedStr szI cfg hsplit hsz hszr hcfg hne hoob
    rw [ValidationJs.validateSolution_eval pid history sizeStr diffStr seedStr szI cfg
      hsplit hsz hszr hcfg hne]
    rcases hoob with ⟨m, hm, hoobm⟩
    rw [if_pos (List.any_eq_true.mpr ⟨m, hm, by simpa using hoobm⟩)]

/-- Counterexample for C5 as frozen: the malformed identifier `"5"`
with a non-empty history makes `validateSolution` throw (`diffStr` is
`undefined`), instead of returning `false`. -/
theorem c5_counterexample_short_id_throws :
    ValidationJs.validateSolution "5" [⟨0, 0, 1, 0⟩] =
      Except.error "TypeError: diffStr is undefined" :=
  ValidationJs.validateSolution_short_id "5" [⟨0, 0, 1, 0⟩]
    (by with_unfolding_all decide) (by with_unfolding_all decide)

/-- Witness for C5 at a concrete out-of-bounds move: row `2` in a
`2 × 2` puzzle is rejected with `false`. -/
theorem c5_invalid_input_handling_witness :
    ("2:MEDIUM:7".splitOn ":" = ["2", "MEDIUM", "7"] ∧
     ([⟨2, 0, 1, 0⟩] : List ValidationJs.Move) ≠ [] ∧
     ValidationJs.outOfBounds (Int.toNat 2) (⟨2, 0, 1, 0⟩ : ValidationJs.Move)) ∧
    ValidationJs.validateSolution "2:MEDIUM:7" [⟨2, 0, 1, 0⟩] = Except.ok false :=
  ⟨⟨by with_unfolding_all decide, by with_unfolding_all decide, by decide⟩,
   c5_invalid_input_handling.2.2 "2:MEDIUM:7" [⟨2, 0, 1, 0⟩]
     "2" "MEDIUM" "7" 2 ⟨0.53, 0.58⟩
     (by with_unfolding_all decide) (by with_unfolding_all decide) (by decide)
     (by with_unfolding_all decide) (by with_unfolding_all decide)
     ⟨⟨2, 0, 1, 0⟩, by simp, by decide⟩⟩

/-! ## Legality of move states (claim C6) -/

namespace ValidationJs

open JsRt

instance : DecidableEq (Except String Bool) := fun x y =>
  match x, y with
  | .ok a, .ok b =>
      if h : a = b then isTrue (by rw [h])
      else isFalse (fun hc => by cases hc; exact h rfl)
  | .ok _, .error _ => isFalse (fun hc => by cases hc)
  | .error _, .ok _ => isFalse (fun hc => by cases hc)
  | .error e, .error f =>
      if h : e = f then isTrue (by rw [h])
      else isFalse (fun hc => by cases hc; exact h rfl)

/-- Analysis helper: collapse a state number that is not one of the
three legal cell states to `CROSSED`; legal states are kept. -/
def normalizeCell (v : Int) : Int :=
  if v = 0 ∨ v = 1 ∨ v = 2 then v else 2

/-- Analysis helper: `normalizeCell` applied to a move's `newState`. -/
def normalizeMove (m : Move) : Move :=
  { m with newState := normalizeCell m.newState }

theorem normalizeCell_zero : normalizeCell 0 = 0 := by
  rw [normalizeCell, if_pos (Or.inl rfl)]

theorem normalizeCell_eq_one_iff (v : Int) : normalizeCell v = 1 ↔ v = 1 := by
  rw [normalizeCell]
  split
  · exact Iff.rfl
  · rename_i h
    constructor
    · intro h2
      exact absurd h2 (by omega)
    · intro h1
      exact absurd (Or.inr (Or.inl h1)) h

theorem normalizeMove_default : normalizeMove default = default := by
  rw [normalizeMove]
  have : normalizeCell (default : Move).newState = (default : Move).newState :=
    normalizeCell_zero
  rw [this]

/-- Row reads commute with the cell normalization. -/
theorem getD_map_normalizeRow (g : List (List Int)) (y : Nat) :
    (g.map (List.map normalizeCell)).getD y [] = (g.getD y []).map normalizeCell := by
  rw [List.getD_eq_getElem?_getD, List.getD_eq_getElem?_getD, List.getElem?_map]
  cases g[y]? with
  | none => rfl
  | some row => rfl

theorem getD_map_normalizeCell (row : List Int) (x : Nat) :
    (row.map normalizeCell).getD x 0 = normalizeCell (row.getD x 0) := by
  rw [List.getD_eq_getElem?_getD, List.getD_eq_getElem?_getD, List.getElem?_map]
  cases row[x]? with
  | none => exact normalizeCell_zero.symm
  | some v => rfl

/-- Cell writes commute with the normalization. -/
theorem setCellI_map_normalize (g : List (List Int)) (y x : Nat) (v : Int) :
    (setCellI g y x v).map (List.map normalizeCell) =
      setCellI (g.map (List.map normalizeCell)) y x (normalizeCell v) := by
  rw [setCellI, setCellI, List.map_set, List.map_set, getD_map_normalizeRow]

/-- Replaying a normalized history is the cellwise normalization of the
original replay. -/
theorem replayGrid_map_normalize (size : Nat) (history : List Move) :
    replayGrid size (history.map normalizeMove) =
      (replayGrid size history).map (List.map normalizeCell) := by
  rw [replayGrid, replayGrid, List.foldl_map]
  have main : ∀ (t : List Move) (g : List (List Int)),
      List.foldl (fun acc m => setCellI acc (normalizeMove m).r.toNat
          (normalizeMove m).c.toNat (normalizeMove m).newState)
        (g.map (List.map normalizeCell)) t =
      (List.foldl (fun acc m => setCellI acc m.r.toNat m.c.toNat m.newState) g t).map
        (List.map normalizeCell) := by
    intro t
    induction t with
    | nil => intro g; rfl
    | cons m rest ih =>
        intro g
        rw [List.foldl_cons, List.foldl_cons]
        have hstep : setCellI (g.map (List.map normalizeCell)) (normalizeMove m).r.toNat
            (normalizeMove m).c.toNat (normalizeMove m).newState =
            (setCellI g m.r.toNat m.c.toNat m.newState).map (List.map normalizeCell) :=
          (setCellI_map_normalize g m.r.toNat m.c.toNat m.newState).symm
        rw [hstep]
        exact ih _
  have hempty : (emptyUserGrid size).map (List.map normalizeCell) = emptyUserGrid size := by
    rw [emptyUserGrid, List.map_replicate, List.map_replicate]
    have h0 : normalizeCell EMPTY = EMPTY := normalizeCell_zero
    rw [h0]
  conv_lhs => rw [← hempty]
  exact main history (emptyUserGrid size)

/-- Mismatch testing only sees whether a cell is exactly `FILLED`, so it
is invariant under the normalization. -/
theorem cellMismatch_normalize_iff (t : Nat) (v : Int) :
    cellMismatch t (normalizeCell v) ↔ cellMismatch t v := by
  have hn : normalizeCell v = 1 ↔ v = 1 := normalizeCell_eq_one_iff v
  rw [cellMismatch, cellMismatch, FILLED]
  tauto

theorem errorCount_map_normalize (size : Nat) (target : List (List Nat))
    (user : List (List Int)) :
    errorCount size target (user.map (List.map normalizeCell)) =
      errorCount size target user := by
  rw [errorCount, errorCount]
  apply congrArg
  apply List.map_congr_left
  intro r _
  apply congrArg
  apply List.map_congr_left
  intro c _
  have hcell : getCellI (user.map (List.map normalizeCell)) r c =
      normalizeCell (getCellI user r c) := by
    rw [getCellI, getCellI, getD_map_normalizeRow, getD_map_normalizeCell]
  rw [hcell]
  by_cases h : cellMismatch (getCell target r c) (getCellI user r c)
  · rw [if_pos h, if_pos ((cellMismatch_normalize_iff _ _).mpr h)]
  · rw [if_neg h, if_neg (fun h2 => h ((cellMismatch_normalize_iff _ _).mp h2))]

theorem any_oob_map_normalize (size : Nat) (history : List Move) :
    ((history.map normalizeMove).any (fun m => decide (outOfBounds size m))) =
      history.any (fun m => decide (outOfBounds size m)) := by
  rw [List.any_map]
  rfl

theorem headD_map_normalize (history : List Move) :
    ((history.map normalizeMove).headD default).time = (history.headD default).time := by
  cases history with
  | nil => rfl
  | cons m t => rfl

theorem getLastD_map_aux :
    ∀ (history : List Move) (d : Move),
      (history.map normalizeMove).getLastD (normalizeMove d) =
        normalizeMove (history.getLastD d) := by
  intro history
  induction history with
  | nil => intro d; rfl
  | cons m t ih =>
      intro d
      rw [List.map_cons, List.getLastD_cons, List.getLastD_cons]
      exact ih m

theorem getLastD_map_normalize (history : List Move) :
    ((history.map normalizeMove).getLastD default).time = (history.getLastD default).time := by
  rw [← normalizeMove_default, getLastD_map_aux]
  rfl

theorem isEmpty_map_normalize (history : List Move) :
    (history.map normalizeMove).isEmpty = history.isEmpty := by
  cases history with
  | nil => rfl
  | cons m t => rfl

end ValidationJs

/-- C6 (corrected): `validateSolution` never checks that a move's
`newState` is one of the three legal cell states; an illegal state
number behaves exactly like a `CROSSED` mark, so replacing every illegal
`newState` by `CROSSED` leaves the validator's verdict (including its
exceptions) unchanged on every input. -/
theorem c6_no_state_legality_check (pid : String) (history : List ValidationJs.Move) :
    ValidationJs.validateSolution pid (history.map ValidationJs.normalizeMove) =
      ValidationJs.validateSolution pid history := by
  simp only [ValidationJs.validateSolution, ValidationJs.isEmpty_map_normalize,
    ValidationJs.any_oob_map_normalize, ValidationJs.headD_map_normalize,
    ValidationJs.getLastD_map_normalize, ValidationJs.replayGrid_map_normalize,
    ValidationJs.errorCount_map_normalize]

/-- Counterexample for C6 as frozen: a history carrying the illegal
state `5` on a target-empty cell still validates with `true`. -/
theorem c6_counterexample_illegal_state_accepted :
    (([⟨0, 0, 1, 0⟩, ⟨1, 1, 1, 100⟩, ⟨0, 1, 5, 200⟩] : List ValidationJs.Move).any
      (fun m => decide (¬ (m.newState = 0 ∨ m.newState = 1 ∨ m.newState = 2))) = true) ∧
    ValidationJs.validateSolution "2:MEDIUM:7"
      [⟨0, 0, 1, 0⟩, ⟨1, 1, 1, 100⟩, ⟨0, 1, 5, 200⟩] = Except.ok true := by
  constructor
  · decide
  · with_unfolding_all decide

/-! ## Solver lemmas: monotonicity and the empty-configuration exit -/

namespace JsRt

theorem getD_map_range {α : Type} (n i : Nat) (f : Nat → α) (d : α) :
    ((List.range n).map f).getD i d = if i < n then f i else d := by
  rw [List.getD_eq_getElem?_getD, List.getElem?_map]
  by_cases h : i < n
  · rw [List.getElem?_range h]
    simp [h]
  · rw [List.getElem?_eq_none (by simpa using h)]
    simp [h]

end JsRt

namespace NonogramSolverTs

open JsRt

/-- `solveLine` writes only to cells that are still `EMPTY`. -/
theorem solveLine_preserves (line hints : List Nat) (i : Nat)
    (h : line.getD i 0 ≠ 0) :
    (solveLine line hints).1.getD i 0 = line.getD i 0 := by
  rw [solveLine]
  by_cases hc : (getAllValidConfigs line hints).isEmpty
  · rw [if_pos hc]
  · rw [if_neg hc]
    have hi : i < line.length := by
      by_contra hni
      exact h (List.getD_eq_default _ _ (by omega))
    dsimp only
    rw [getD_map_range]
    rw [if_pos hi, if_pos h]

/-- The updated line keeps the line's length. -/
theorem solveLine_length (line hints : List Nat) :
    (solveLine line hints).1.length = line.length := by
  rw [solveLine]
  by_cases hc : (getAllValidConfigs line hints).isEmpty
  · rw [if_pos hc]
  · rw [if_neg hc]
    dsimp only
    rw [List.length_map, List.length_range]

/-- Reading a column entry is reading the grid cell. -/
theorem getCol_getD (g : List (List Nat)) (c r : Nat) :
    (getCol g c).getD r 0 = getCell g r c := by
  rw [getCol, getCell, List.getD_eq_getElem?_getD, List.getElem?_map,
    List.getD_eq_getElem?_getD g r []]
  cases g[r]? with
  | none => rfl
  | some row => rfl

theorem getCell_setRow_ne (g : List (List Nat)) (rr r c : Nat) (nl : List Nat)
    (h : r ≠ rr) : getCell (setRow g rr nl) r c = getCell g r c := by
  rw [getCell, setRow, getD_set_ne _ _ _ _ _ (fun hx => h hx.symm)]
  rfl

theorem getCell_setRow_self (g : List (List Nat)) (rr c : Nat) (nl : List Nat)
    (hrr : rr < g.length) : getCell (setRow g rr nl) rr c = nl.getD c 0 := by
  rw [getCell, setRow, getD_set_self _ _ _ _ hrr]

/-- The row a `setCol` write leaves at index `r`. -/
theorem setCol_getRow (g : List (List Nat)) (cc : Nat) (nl : List Nat) (r : Nat) :
    (setCol g cc nl).getD r [] =
      if r < g.length then (g.getD r []).set cc (nl.getD r 0) else [] := by
  rw [setCol, List.getD_eq_getElem?_getD (List.mapIdx _ g) r [], List.getElem?_mapIdx]
  by_cases hr : r < g.length
  · rw [List.getElem?_eq_getElem hr, if_pos hr, List.getD_eq_getElem g [] hr]
    rfl
  · rw [List.getElem?_eq_none (by omega), if_neg hr]
    rfl

/-- A `setCol` write seen through `getCell`, other columns. -/
theorem getCell_setCol_ne (g : List (List Nat)) (cc r c : Nat) (nl : List Nat)
    (h : c ≠ cc) : getCell (setCol g cc nl) r c = getCell g r c := by
  rw [getCell, setCol_getRow]
  by_cases hr : r < g.length
  · rw [if_pos hr, getD_set_ne _ _ _ _ _ (fun hx => h hx.symm)]
    rfl
  · rw [if_neg hr, getCell, List.getD_eq_default g [] (by omega)]

theorem getCell_setCol_self (g : List (List Nat)) (cc r : Nat) (nl : List Nat)
    (hr : r < g.length) (hc : cc < (g.getD r []).length) :
    getCell (setCol g cc nl) r cc = nl.getD r 0 := by
  rw [getCell, setCol_getRow, if_pos hr]
  exact getD_set_self _ _ _ _ hc

/-- One row-solving step preserves every resolved cell. -/
theorem rowStep_preserves (rowHints : List (List Nat)) (g : List (List Nat))
    (rr r c : Nat) (h : getCell g r c ≠ 0) :
    getCell (if (solveLine (getRow g rr) (rowHints.getD rr [])).2
      then setRow g rr (solveLine (getRow g rr) (rowHints.getD rr [])).1 else g) r c =
      getCell g r c := by
  split
  · by_cases hrr : r = rr
    · subst hrr
      by_cases hlen : r < g.length
      · rw [getCell_setRow_self g r c _ hlen]
        have hrow : (getRow g r).getD c 0 = getCell g r c := rfl
        rw [solveLine_preserves (getRow g r) (rowHints.getD r []) c (by rw [hrow]; exact h),
          hrow]
      · rw [setRow, List.set_eq_of_length_le (by omega)]
    · exact getCell_setRow_ne g rr r c _ hrr
  · rfl

/-- One column-solving step preserves every resolved cell. -/
theorem colStep_preserves (colHints : List (List Nat)) (g : List (List Nat))
    (cc r c : Nat) (h : getCell g r c ≠ 0) :
    getCell (if (solveLine (getCol g cc) (colHints.getD cc [])).2
      then setCol g cc (solveLine (getCol g cc) (colHints.getD cc [])).1 else g) r c =
      getCell g r c := by
  split
  · by_cases hcc : c = cc
    · subst hcc
      by_cases hlen : r < g.length
      · by_cases hwide : c < (g.getD r []).length
        · rw [getCell_setCol_self g c r _ hlen hwide]
          rw [solveLine_preserves (getCol g c) (colHints.getD c []) r
            (by rw [getCol_getD]; exact h), getCol_getD]
        · exact absurd (List.getD_eq_default _ _ (by omega)) h
      · exact absurd (by rw [getCell, List.getD_eq_default g [] (by omega)]; rfl) h
    · exact getCell_setCol_ne g cc r c _ hcc
  · rfl

/-- The row pass preserves every resolved cell. -/
theorem foldRows_preserves (rowHints : List (List Nat)) :
    ∀ (idxs : List Nat) (acc : List (List Nat) × Bool) (r c : Nat),
      getCell acc.1 r c ≠ 0 →
      getCell ((idxs.foldl (fun acc rr =>
        let res := solveLine (getRow acc.1 rr) (rowHints.getD rr [])
        (if res.2 then setRow acc.1 rr res.1 else acc.1, acc.2 || res.2)) acc).1) r c =
        getCell acc.1 r c := by
  intro idxs
  induction idxs with
  | nil => intro acc r c _; rfl
  | cons rr rest ih =>
      intro acc r c h
      rw [List.foldl_cons]
      have hstep := rowStep_preserves rowHints acc.1 rr r c h
      rw [ih _ r c (by rw [hstep]; exact h), hstep]

/-- The column pass preserves every resolved cell. -/
theorem foldCols_preserves (colHints : List (List Nat)) :
    ∀ (idxs : List Nat) (acc : List (List Nat) × Bool) (r c : Nat),
      getCell acc.1 r c ≠ 0 →
      getCell ((idxs.foldl (fun acc cc =>
        let res := solveLine (getCol acc.1 cc) (colHints.getD cc [])
        (if res.2 then setCol acc.1 cc res.1 else acc.1, acc.2 || res.2)) acc).1) r c =
        getCell acc.1 r c := by
  intro idxs
  induction idxs with
  | nil => intro acc r c _; rfl
  | cons cc rest ih =>
      intro acc r c h
      rw [List.foldl_cons]
      have hstep := colStep_preserves colHints acc.1 cc r c h
      rw [ih _ r c (by rw [hstep]; exact h), hstep]

/-- A full pass preserves every resolved cell. -/
theorem solvePass_preserves (size : Nat) (rowHints colHints : List (List Nat))
    (st : List (List Nat)) (r c : Nat) (h : getCell st r c ≠ 0) :
    getCell (solvePass size rowHints colHints st).1 r c = getCell st r c := by
  rw [solvePass]
  have hrows := foldRows_preserves rowHints (List.range size) (st, false) r c h
  have hcols := foldCols_preserves colHints (List.range size)
    ((List.range size).foldl (fun acc rr =>
      let res := solveLine (getRow acc.1 rr) (rowHints.getD rr [])
      (if res.2 then setRow acc.1 rr res.1 else acc.1, acc.2 || res.2)) (st, false)) r c
    (by rw [hrows]; exact h)
  rw [hcols, hrows]

/-- The whole solve loop preserves every resolved cell. -/
theorem solveLoop_preserves (size : Nat) (rowHints colHints : List (List Nat)) :
    ∀ (fuel : Nat) (st : List (List Nat)) (r c : Nat), getCell st r c ≠ 0 →
      getCell (solveLoop size rowHints colHints fuel st) r c = getCell st r c := by
  intro fuel
  induction fuel with
  | zero => intro st r c _; rfl
  | succ n ih =>
      intro st r c h
      rw [solveLoop]
      have hpass := solvePass_preserves size rowHints colHints st r c h
      split
      · rw [ih _ r c (by rw [hpass]; exact h), hpass]
      · rfl

end NonogramSolverTs

/-- C8: during a `NonogramSolver.solve` run a resolved cell is final:
`solveLine` only assigns to cells that are still `EMPTY`, and every
iteration of the solve loop therefore preserves each already-resolved
cell's exact value — no `FILLED`/`CROSSED` flip and no reversion to
`EMPTY` can occur from any reachable intermediate state. -/
theorem c8_solver_monotonicity :
    (∀ (line hints : List Nat) (i : Nat), line.getD i 0 ≠ 0 →
      (NonogramSolverTs.solveLine line hints).1.getD i 0 = line.getD i 0) ∧
    (∀ (size : Nat) (rowHints colHints : List (List Nat)) (fuel : Nat)
      (st : List (List Nat)) (r c : Nat), JsRt.getCell st r c ≠ 0 →
      JsRt.getCell (NonogramSolverTs.solveLoop size rowHints colHints fuel st) r c =
        JsRt.getCell st r c) :=
  ⟨NonogramSolverTs.solveLine_preserves,
   fun size rowHints colHints fuel st r c h =>
     NonogramSolverTs.solveLoop_preserves size rowHints colHints fuel st r c h⟩

/-- Witness for C8 on a concrete resolved cell: a `1 × 1` grid whose
single cell is already `FILLED` keeps it through `solveLine` and a full
bounded solve loop. -/
theorem c8_solver_monotonicity_witness :
    (([1] : List Nat).getD 0 0 ≠ 0 ∧
      (NonogramSolverTs.solveLine [1] [1]).1.getD 0 0 = ([1] : List Nat).getD 0 0) ∧
    (JsRt.getCell [[1]] 0 0 ≠ 0 ∧
      JsRt.getCell (NonogramSolverTs.solveLoop 1 [[1]] [[1]] 2 [[1]]) 0 0 =
        JsRt.getCell [[1]] 0 0) :=
  ⟨⟨by decide, c8_solver_monotonicity.1 [1] [1] 0 (by decide)⟩,
   ⟨by decide, c8_solver_monotonicity.2 1 [[1]] [[1]] 2 [[1]] 0 0 (by decide)⟩⟩

/-- C9: with zero valid configurations `solveLine` reports no progress
and leaves the line (hence the grid) unchanged; being a total function,
the embedded solver cannot throw. -/
theorem c9_empty_configs_no_progress (line hints : List Nat)
    (h : NonogramSolverTs.getAllValidConfigs line hints = []) :
    NonogramSolverTs.solveLine line hints = (line, false) := by
  simp only [NonogramSolverTs.solveLine, h, List.isEmpty_nil, if_true]

/-- Witness for C9: a single `CROSSED` cell admits no placement of the
clue `[1]`, and `solveLine` returns it unchanged with `false`. -/
theorem c9_empty_configs_no_progress_witness :
    NonogramSolverTs.getAllValidConfigs [2] [1] = [] ∧
    NonogramSolverTs.solveLine [2] [1] = ([2], false) :=
  ⟨by decide, c9_empty_configs_no_progress [2] [1] (by decide)⟩

/-! ## Solver soundness for the seed-pool gate (claim C7)

The pool accepts a seed exactly when `Solver.solve()` returns `true` on
the clues of the generated grid.  We prove that in that case the
solver's terminal grid is the generated grid itself, `1 ↦ FILLED`,
`0 ↦ CROSSED`.  The backbone is a completeness fact: the encoding of the
true line always appears among `getConfigs`' enumerated configurations,
so the per-cell intersection can only ever resolve a cell to the true
value. -/

namespace SeedScript

open JsRt

/-- The terminal state a correctly solved cell must reach. -/
def encodeCell (v : Nat) : Nat := if v = 1 then 1 else 2

/-- A truth line rendered as terminal solver states. -/
def encodeLine (U : List Nat) : List Nat := U.map encodeCell

/-- A truth grid rendered as terminal solver states. -/
def encodeGrid (T : List (List Nat)) : List (List Nat) := T.map encodeLine

/-- A line of binary cell values. -/
def BinaryLine (U : List Nat) : Prop := ∀ v ∈ U, v ≤ 1

/-- The partially solved line `L` agrees with the truth line `U` on
every resolved cell. -/
def CompatLine (L U : List Nat) : Prop :=
  ∀ i, L.getD i 0 ≠ 0 → L.getD i 0 = encodeCell (U.getD i 0)

theorem encodeLine_length (U : List Nat) : (encodeLine U).length = U.length :=
  List.length_map _ _

theorem encodeLine_getD_lt (U : List Nat) (j : Nat) (hj : j < U.length) :
    (encodeLine U).getD j 0 = encodeCell (U.getD j 0) := by
  rw [encodeLine, List.getD_eq_getElem _ _ (by rw [List.length_map]; exact hj),
    List.getElem_map, List.getD_eq_getElem _ _ hj]

theorem encodeCell_values (v : Nat) : encodeCell v = 1 ∨ encodeCell v = 2 := by
  rw [encodeCell]
  split
  · exact Or.inl rfl
  · exact Or.inr rfl

theorem encodeCell_eq_one_iff (v : Nat) : encodeCell v = 1 ↔ v = 1 := by
  rw [encodeCell]
  split
  · rename_i h
    exact ⟨fun _ => h, fun _ => rfl⟩
  · rename_i h
    exact ⟨fun h2 => absurd h2 (by omega), fun h1 => absurd h1 h⟩

/-- A blank suffix makes `calcHintsAux` with a clear accumulator empty. -/
theorem calcHintsAux_eq_nil_of_no_one (V : List Nat) (hno : ∀ v ∈ V, v ≠ 1) :
    calcHintsAux V 0 = [] := by
  induction V with
  | nil => rfl
  | cons v rest ih =>
      rw [calcHintsAux]
      rw [if_neg (hno v (List.mem_cons_self _ _))]
      rw [if_neg (by omega)]
      exact ih (fun w hw => hno w (List.mem_cons_of_mem _ hw))

/-- Conversely an empty clue list forces a blank suffix. -/
theorem no_one_of_calcHintsAux_eq_nil (V : List Nat) (h : calcHintsAux V 0 = []) :
    ∀ v ∈ V, v ≠ 1 := by
  induction V with
  | nil => intro v hv; simp at hv
  | cons v rest ih =>
      rw [calcHintsAux] at h
      intro w hw
      by_cases hv1 : v = 1
      · rw [if_pos hv1] at h
        exfalso
        clear ih hw
        generalize hacc : 1 = acc at h
        have hacc1 : 1 ≤ acc := by omega
        clear hacc
        induction rest generalizing acc with
        | nil =>
            rw [calcHintsAux, if_pos (by omega)] at h
            exact absurd h (by simp)
        | cons w2 rest2 ih2 =>
            rw [calcHintsAux] at h
            by_cases hw2 : w2 = 1
            · rw [if_pos hw2] at h
              exact ih2 (acc + 1) h (by omega)
            · rw [if_neg hw2, if_pos (by omega)] at h
              exact absurd h (by simp)
      · rw [if_neg hv1, if_neg (by omega)] at h
        rcases List.mem_cons.mp hw with hwv | hwrest
        · rw [hwv]; exact hv1
        · exact ih h w hwrest

/-- The clue list of a line fits in the line: total run length plus the
mandatory gaps is at most the length (shifted by the accumulator). -/
theorem calcHintsAux_fit (V : List Nat) :
    ∀ c : Nat, (calcHintsAux V c).sum + (calcHintsAux V c).length ≤ V.length + 1 + c := by
  induction V with
  | nil =>
      intro c
      rw [calcHintsAux]
      split
      · simp; omega
      · simp
  | cons v rest ih =>
      intro c
      rw [calcHintsAux]
      by_cases hv : v = 1
      · rw [if_pos hv]
        have := ih (c + 1)
        simpa [Nat.add_assoc, Nat.add_comm, Nat.add_left_comm] using this
      · rw [if_neg hv]
        by_cases hc : 0 < c
        · rw [if_pos hc]
          have := ih 0
          simp only [List.sum_cons, List.length_cons, List.length_cons]
          omega
        · rw [if_neg hc]
          have := ih 0
          simp only [List.length_cons]
          omega

/-- An in-flight run of the clue scanner: with a positive accumulator
the next clue closes the current run of 1s. -/
theorem calcHintsAux_run_acc :
    ∀ (V : List Nat) (c h : Nat) (rest : List Nat), BinaryLine V → 0 < c →
      calcHintsAux V c = h :: rest →
      ∃ m V2, V = List.replicate m 1 ++ V2 ∧ h = c + m ∧
        ((V2 = [] ∧ rest = []) ∨
         (∃ V3, V2 = 0 :: V3 ∧ rest = calcHintsAux V3 0)) := by
  intro V
  induction V with
  | nil =>
      intro c h rest _ hc heq
      rw [calcHintsAux, if_pos hc] at heq
      rcases List.cons.injEq .. ▸ heq with ⟨hh, hrest⟩
      exact ⟨0, [], by simp, by omega, Or.inl ⟨rfl, hrest.symm⟩⟩
  | cons v tail ih =>
      intro c h rest hbin hc heq
      rw [calcHintsAux] at heq
      by_cases hv : v = 1
      · rw [if_pos hv] at heq
        rcases ih (c + 1) h rest
          (fun w hw => hbin w (List.mem_cons_of_mem _ hw)) (by omega) heq with
          ⟨m, V2, hV, hh, hcase⟩
        refine ⟨m + 1, V2, ?_, by omega, hcase⟩
        rw [List.replicate_succ, List.cons_append, ← hV, hv]
      · rw [if_neg hv, if_pos hc] at heq
        have hv0 : v = 0 := by
          have := hbin v (List.mem_cons_self _ _)
          omega
        rcases List.cons.injEq .. ▸ heq with ⟨hh, hrest⟩
        exact ⟨0, v :: tail, by simp, by omega,
          Or.inr ⟨tail, by rw [hv0], hrest.symm⟩⟩

/-- The first clue of a binary line: the line starts with a block of
zeros, then exactly `h` ones, then either ends or has a separating zero
followed by the rest of the clues' line. -/
theorem calcHintsAux_run_decomp :
    ∀ (V : List Nat) (h : Nat) (rest : List Nat), BinaryLine V →
      calcHintsAux V 0 = h :: rest →
      ∃ z V2, V = List.replicate z 0 ++ List.replicate h 1 ++ V2 ∧ 0 < h ∧
        ((V2 = [] ∧ rest = []) ∨
         (∃ V3, V2 = 0 :: V3 ∧ rest = calcHintsAux V3 0)) := by
  intro V
  induction V with
  | nil =>
      intro h rest _ heq
      rw [calcHintsAux] at heq
      exact absurd heq (by simp)
  | cons v tail ih =>
      intro h rest hbin heq
      rw [calcHintsAux] at heq
      by_cases hv : v = 1
      · rw [if_pos hv] at heq
        rcases calcHintsAux_run_acc tail 1 h rest
          (fun w hw => hbin w (List.mem_cons_of_mem _ hw)) (by omega) heq with
          ⟨m, V2, hV, hh, hcase⟩
        refine ⟨0, V2, ?_, by omega, hcase⟩
        rw [List.replicate, List.nil_append, hh]
        rw [show (1 : Nat) + m = m + 1 by omega, List.replicate_succ, List.cons_append,
          ← hV, hv]
      · rw [if_neg hv, if_neg (by omega)] at heq
        have hv0 : v = 0 := by
          have := hbin v (List.mem_cons_self _ _)
          omega
        rcases ih h rest (fun w hw => hbin w (List.mem_cons_of_mem _ hw)) heq with
          ⟨z, V2, hV, hh, hcase⟩
        refine ⟨z + 1, V2, ?_, hh, hcase⟩
        rw [List.replicate_succ, List.cons_append, List.cons_append, ← hV, hv0]

/-- The partially built `current` array after the runs below frontier
`p` have been placed: `1` exactly on the already placed run cells. -/
def maskUpTo (E : List Nat) (p : Nat) : List Nat :=
  (List.range E.length).map (fun j => if j < p ∧ E.getD j 0 = 1 then 1 else 0)

theorem maskUpTo_length (E : List Nat) (p : Nat) : (maskUpTo E p).length = E.length := by
  rw [maskUpTo, List.length_map, List.length_range]

theorem maskUpTo_getD (E : List Nat) (p j : Nat) :
    (maskUpTo E p).getD j 0 =
      if j < E.length then (if j < p ∧ E.getD j 0 = 1 then 1 else 0) else 0 := by
  rw [maskUpTo, getD_map_range]

theorem maskUpTo_zero (E : List Nat) : maskUpTo E 0 = List.replicate E.length 0 := by
  apply List.ext_getElem
  · rw [maskUpTo_length, List.length_replicate]
  · intro j h1 h2
    rw [List.getElem_replicate, ← List.getD_eq_getElem _ 0 h1, maskUpTo_getD]
    rw [if_pos (by rw [maskUpTo_length] at h1; exact h1)]
    rw [if_neg (by omega)]

theorem placeRun_length :
    ∀ (h : Nat) (cur : List Nat) (i : Nat), (placeRun cur i h).length = cur.length := by
  intro h
  induction h with
  | zero => intro cur i; rfl
  | succ n ih =>
      intro cur i
      rw [placeRun, ih, List.length_set]

theorem placeRun_getD :
    ∀ (h : Nat) (cur : List Nat) (i j : Nat), i + h ≤ cur.length →
      (placeRun cur i h).getD j 0 =
        if i ≤ j ∧ j < i + h then 1 else cur.getD j 0 := by
  intro h
  induction h with
  | zero =>
      intro cur i j _
      rw [placeRun, if_neg (by omega)]
  | succ n ih =>
      intro cur i j hlen
      rw [placeRun, ih (cur.set i 1) (i + 1) j (by rw [List.length_set]; omega)]
      by_cases hj1 : i + 1 ≤ j ∧ j < i + 1 + n
      · rw [if_pos hj1, if_pos (by omega)]
      · rw [if_neg hj1]
        by_cases hji : j = i
        · subst hji
          rw [getD_set_self _ _ _ _ (by omega), if_pos (by omega)]
        · rw [getD_set_ne _ _ _ _ _ (fun hx => hji hx.symm), if_neg (by omega)]

/-- Placing the next run of the truth line advances the mask frontier. -/
theorem placeRun_maskUpTo (E : List Nat) (p i h : Nat)
    (hpi : p ≤ i) (hlen : i + h ≤ E.length)
    (hgap : ∀ j, p ≤ j → j < i → E.getD j 0 ≠ 1)
    (hrun : ∀ j, i ≤ j → j < i + h → E.getD j 0 = 1) :
    placeRun (maskUpTo E p) i h = maskUpTo E (i + h) := by
  apply List.ext_getElem
  · rw [placeRun_length, maskUpTo_length, maskUpTo_length]
  · intro j h1 h2
    have hjlen : j < E.length := by
      rw [placeRun_length, maskUpTo_length] at h1
      exact h1
    rw [← List.getD_eq_getElem _ 0 h1, ← List.getD_eq_getElem _ 0 h2,
      placeRun_getD h (maskUpTo E p) i j (by rw [maskUpTo_length]; exact hlen),
      maskUpTo_getD, maskUpTo_getD, if_pos hjlen, if_pos hjlen]
    by_cases hj1 : i ≤ j ∧ j < i + h
    · rw [if_pos hj1, if_pos ⟨by omega, hrun j hj1.1 hj1.2⟩]
    · rw [if_neg hj1]
      by_cases hjp : j < p ∧ E.getD j 0 = 1
      · rw [if_pos hjp, if_pos ⟨by omega, hjp.2⟩]
      · rw [if_neg hjp]
        by_cases hjih : j < i + h ∧ E.getD j 0 = 1
        · exfalso
          have hji : j < i := by omega
          by_cases hjp2 : j < p
          · exact hjp ⟨hjp2, hjih.2⟩
          · exact hgap j (by omega) hji hjih.2
        · rw [if_neg hjih]

theorem drop_getD (U : List Nat) (s k : Nat) :
    (U.drop s).getD k 0 = U.getD (s + k) 0 := by
  rw [List.getD_eq_getElem?_getD, List.getElem?_drop, List.getD_eq_getElem?_getD]

theorem getD_replicate_append (a : Nat) (n : Nat) (l : List Nat) (k : Nat) :
    (List.replicate n a ++ l).getD k 0 = if k < n then a else l.getD (k - n) 0 := by
  by_cases hk : k < n
  · rw [List.getD_append _ _ _ _ (by rw [List.length_replicate]; exact hk), if_pos hk,
      List.getD_eq_getElem _ _ (by rw [List.length_replicate]; exact hk),
      List.getElem_replicate]
  · rw [List.getD_append_right _ _ _ _ (by rw [List.length_replicate]; omega), if_neg hk,
      List.length_replicate]

/-- The unfolded base case of the backtracking enumeration. -/
theorem configsAux_nil (L cur : List Nat) (s : Nat) :
    configsAux L [] cur s =
      if compatibleConfig (cur.map (fun v => if v = 0 then 2 else v)) L
      then [cur.map (fun v => if v = 0 then 2 else v)] else [] := by
  rw [configsAux]

/-- The unfolded recursive case of the backtracking enumeration. -/
theorem configsAux_cons (L : List Nat) (h : Nat) (rest cur : List Nat) (s : Nat) :
    configsAux L (h :: rest) cur s =
      (List.range' s (L.length + 1 - (rest.sum + rest.length + h + s))).flatMap (fun i =>
        if (∀ j < h, L.getD (i + j) 0 ≠ 2) ∧
           ¬(i + h < L.length ∧ L.getD (i + h) 0 = 1) ∧
           (∀ j < i, s ≤ j → L.getD j 0 ≠ 1)
        then configsAux L rest (placeRun cur i h) (i + h + 1)
        else []) := by
  rw [configsAux]

/-- Truth-line completeness of the enumeration: as long as the still
unplaced clues are exactly the clues of the truth line beyond `start`
and the line state is compatible with the truth, the encoding of the
truth line is produced. -/
theorem encodeLine_mem_configsAux :
    ∀ (hs : List Nat) (U L : List Nat) (start p : Nat),
      L.length = U.length →
      BinaryLine U →
      CompatLine L U →
      p ≤ start →
      (∀ j, p ≤ j → j < start → U.getD j 0 ≠ 1) →
      hs = calcHintsAux (U.drop start) 0 →
      encodeLine U ∈ configsAux L hs (maskUpTo (encodeLine U) p) start := by
  intro hs
  induction hs with
  | nil =>
      intro U L start p hlen hbin hcompat hps hgap hhs
      have hno1 : ∀ j, start ≤ j → U.getD j 0 ≠ 1 := by
        intro j hj
        by_cases hjlen : j < U.length
        · have hdk : (U.drop start).getD (j - start) 0 = U.getD j 0 := by
            rw [drop_getD]
            congr 1
            omega
          have hmem : (U.drop start).getD (j - start) 0 ∈ U.drop start := by
            have hklen : j - start < (U.drop start).length := by
              rw [List.length_drop]
              omega
            rw [List.getD_eq_getElem _ _ hklen]
            exact List.getElem_mem hklen
          have := no_one_of_calcHintsAux_eq_nil (U.drop start) hhs.symm _ hmem
          rw [hdk] at this
          exact this
        · rw [List.getD_eq_default _ _ (by omega)]
          omega
      have hEne1 : ∀ j, p ≤ j → (encodeLine U).getD j 0 ≠ 1 := by
        intro j hj
        by_cases hjlen : j < U.length
        · rw [encodeLine_getD_lt U j hjlen]
          intro h1e
          rw [encodeCell_eq_one_iff] at h1e
          by_cases hjs : j < start
          · exact hgap j hj hjs h1e
          · exact hno1 j (by omega) h1e
        · rw [List.getD_eq_default _ _ (by rw [encodeLine_length]; omega)]
          omega
      have hcfg_eq : (maskUpTo (encodeLine U) p).map (fun v => if v = 0 then 2 else v) =
          encodeLine U := by
        apply List.ext_getElem
        · rw [List.length_map, maskUpTo_length]
        · intro j h1 h2
          have hjlen : j < U.length := by
            rw [encodeLine_length] at h2
            exact h2
          have hmasklen : j < (maskUpTo (encodeLine U) p).length := by
            rw [maskUpTo_length, encodeLine_length]
            exact hjlen
          rw [List.getElem_map, ← List.getD_eq_getElem _ 0 hmasklen,
            ← List.getD_eq_getElem _ 0 h2]
          have mval : (maskUpTo (encodeLine U) p).getD j 0 =
              (if j < p ∧ (encodeLine U).getD j 0 = 1 then 1 else 0) := by
            rw [maskUpTo_getD, if_pos (by rw [encodeLine_length]; exact hjlen)]
          rw [mval]
          by_cases hjc : j < p ∧ (encodeLine U).getD j 0 = 1
          · rw [if_pos hjc, if_neg (by omega : ¬(1 : Nat) = 0)]
            exact hjc.2.symm
          · rw [if_neg hjc, if_pos rfl]
            have hne1 : (encodeLine U).getD j 0 ≠ 1 := by
              by_cases hjp : j < p
              · intro h1e
                exact hjc ⟨hjp, h1e⟩
              · exact hEne1 j (by omega)
            rcases encodeCell_values (U.getD j 0) with hv | hv
            · rw [encodeLine_getD_lt U j hjlen] at hne1
              exact absurd hv hne1
            · rw [encodeLine_getD_lt U j hjlen, hv]
      have hcompatible : compatibleConfig (encodeLine U) L := by
        intro i hi
        rw [encodeLine_length] at hi
        rw [encodeLine_getD_lt U i hi]
        constructor
        · intro hL1
          have := hcompat i (by rw [hL1]; omega)
          rw [hL1] at this
          exact this.symm
        · intro hL2
          have := hcompat i (by rw [hL2]; omega)
          rw [hL2] at this
          rw [← this]
          omega
      rw [configsAux_nil, hcfg_eq, if_pos hcompatible]
      exact List.mem_singleton.mpr rfl
  | cons h rest ih =>
      intro U L start p hlen hbin hcompat hps hgap hhs
      have hbinV : BinaryLine (U.drop start) :=
        fun v hv => hbin v (List.drop_subset start U hv)
      rcases calcHintsAux_run_decomp (U.drop start) h rest hbinV hhs.symm with
        ⟨z, V2, hV, hpos, hcase⟩
      have hVlen : (U.drop start).length = U.length - start := List.length_drop start U
      have hVlen2 : (U.drop start).length = z + h + V2.length := by
        rw [hV]
        simp [List.length_append, List.length_replicate]
        omega
      have hstartlt : start < U.length := by
        have h1 : 0 < (U.drop start).length := by omega
        omega
      have hilen : start + z + h ≤ U.length := by omega
      have hzero : ∀ j, start ≤ j → j < start + z → U.getD j 0 = 0 := by
        intro j hj1 hj2
        have hk : (U.drop start).getD (j - start) 0 = U.getD j 0 := by
          rw [drop_getD]
          congr 1
          omega
        rw [← hk, hV, List.append_assoc, getD_replicate_append, if_pos (by omega)]
      have hone : ∀ j, start + z ≤ j → j < start + z + h → U.getD j 0 = 1 := by
        intro j hj1 hj2
        have hk : (U.drop start).getD (j - start) 0 = U.getD j 0 := by
          rw [drop_getD]
          congr 1
          omega
        rw [← hk, hV, List.append_assoc, getD_replicate_append, if_neg (by omega),
          getD_replicate_append, if_pos (by omega)]
      have hcan : (∀ j < h, L.getD (start + z + j) 0 ≠ 2) ∧
          ¬(start + z + h < L.length ∧ L.getD (start + z + h) 0 = 1) ∧
          (∀ j < start + z, start ≤ j → L.getD j 0 ≠ 1) := by
        refine ⟨?_, ?_, ?_⟩
        · intro j hj
          have hu : U.getD (start + z + j) 0 = 1 := hone (start + z + j) (by omega) (by omega)
          by_cases hL0 : L.getD (start + z + j) 0 = 0
          · omega
          · have hcv := hcompat (start + z + j) hL0
            rw [hu] at hcv
            rw [hcv, encodeCell]
            norm_num
        · rintro ⟨hlt, hL1⟩
          rw [hlen] at hlt
          rcases hcase with ⟨hV2nil, _⟩ | ⟨V3, hV2cons, _⟩
          · rw [hV2nil] at hVlen2
            simp at hVlen2
            omega
          · have hu : U.getD (start + z + h) 0 = 0 := by
              have hk : (U.drop start).getD (z + h) 0 = U.getD (start + z + h) 0 := by
                rw [drop_getD]
                congr 1
                omega
              rw [← hk, hV, List.append_assoc, getD_replicate_append, if_neg (by omega),
                getD_replicate_append, if_neg (by omega), hV2cons]
              simp
            have hcv := hcompat (start + z + h) (by rw [hL1]; omega)
            rw [hL1, hu] at hcv
            rw [encodeCell] at hcv
            norm_num at hcv
        · intro j hj hsj
          have hu : U.getD j 0 = 0 := hzero j hsj hj
          by_cases hL0 : L.getD j 0 = 0
          · omega
          · have hcv := hcompat j hL0
            rw [hu] at hcv
            rw [hcv, encodeCell]
            norm_num
      have hrfit : rest.sum + rest.length ≤ U.length - (start + z + h) := by
        rcases hcase with ⟨_, hrest⟩ | ⟨V3, hV2cons, hrest⟩
        · rw [hrest]
          simp
        · rw [hrest]
          have hfit := calcHintsAux_fit V3 0
          have hV3len : V3.length + 1 = V2.length := by
            rw [hV2cons]
            rfl
          omega
      have hmemrange : start + z ∈ List.range' start
          (L.length + 1 - (rest.sum + rest.length + h + start)) := by
        rw [List.mem_range'_1]
        refine ⟨by omega, ?_⟩
        rw [hlen]
        omega
      have hplace : placeRun (maskUpTo (encodeLine U) p) (start + z) h =
          maskUpTo (encodeLine U) (start + z + h) := by
        apply placeRun_maskUpTo
        · omega
        · rw [encodeLine_length]
          exact hilen
        · intro j hj1 hj2
          by_cases hjlen : j < U.length
          · rw [encodeLine_getD_lt U j hjlen]
            intro h1e
            rw [encodeCell_eq_one_iff] at h1e
            by_cases hjs : j < start
            · exact hgap j hj1 hjs h1e
            · have := hzero j (by omega) hj2
              omega
          · rw [List.getD_eq_default _ _ (by rw [encodeLine_length]; omega)]
            omega
        · intro j hj1 hj2
          have hjlen : j < U.length := by omega
          rw [encodeLine_getD_lt U j hjlen, encodeCell_eq_one_iff]
          exact hone j hj1 hj2
      have hgap2 : ∀ j, start + z + h ≤ j → j < start + z + h + 1 → U.getD j 0 ≠ 1 := by
        intro j hj1 hj2
        have hj : j = start + z + h := by omega
        subst hj
        rcases hcase with ⟨hV2nil, _⟩ | ⟨V3, hV2cons, _⟩
        · rw [hV2nil] at hVlen2
          simp at hVlen2
          rw [List.getD_eq_default _ _ (by omega)]
          omega
        · have hk : (U.drop start).getD (z + h) 0 = U.getD (start + z + h) 0 := by
            rw [drop_getD]
            congr 1
            omega
          rw [← hk, hV, List.append_assoc, getD_replicate_append, if_neg (by omega),
            getD_replicate_append, if_neg (by omega), hV2cons]
          simp
      have hhs2 : rest = calcHintsAux (U.drop (start + z + h + 1)) 0 := by
        rcases hcase with ⟨hV2nil, hrest⟩ | ⟨V3, hV2cons, hrest⟩
        · rw [hrest]
          have hdnil : U.drop (start + z + h + 1) = [] := by
            apply List.drop_eq_nil_of_le
            rw [hV2nil] at hVlen2
            simp at hVlen2
            omega
          rw [hdnil]
          rfl
        · rw [hrest]
          congr 1
          have hdd : U.drop (start + z + h + 1) = (U.drop start).drop (z + h + 1) := by
            rw [List.drop_drop]
            congr 1
            omega
          rw [hdd, hV, List.append_assoc, hV2cons]
          rw [show z + h + 1 = (List.replicate z (0 : Nat)).length + (h + 1) by
            rw [List.length_replicate]
            omega]
          rw [List.drop_append]
          rw [show h + 1 = (List.replicate h (1 : Nat)).length + 1 by
            rw [List.length_replicate]]
          rw [List.drop_append]
          rfl
      rw [configsAux_cons]
      apply List.mem_flatMap.mpr
      refine ⟨start + z, hmemrange, ?_⟩
      rw [if_pos hcan, hplace]
      exact ih U L (start + z + h + 1) (start + z + h) hlen hbin hcompat (by omega)
        hgap2 hhs2

/-- Completeness for the blank-line clue `[0]`: the all-`CROSSED`
encoding of a 1-free truth line is enumerated. -/
theorem encodeLine_mem_configsAux_zero (U L : List Nat)
    (hlen : L.length = U.length) (hbin : BinaryLine U) (hcompat : CompatLine L U)
    (hno1 : ∀ v ∈ U, v ≠ 1) :
    encodeLine U ∈ configsAux L [0] (maskUpTo (encodeLine U) 0) 0 := by
  have hU1 : ∀ j, U.getD j 0 ≠ 1 := by
    intro j
    by_cases hjlen : j < U.length
    · rw [List.getD_eq_getElem _ _ hjlen]
      exact hno1 _ (List.getElem_mem hjlen)
    · rw [List.getD_eq_default _ _ (by omega)]
      omega
  rw [configsAux_cons]
  apply List.mem_flatMap.mpr
  refine ⟨0, ?_, ?_⟩
  · rw [List.mem_range'_1]
    simp
  · have hcan : (∀ j < 0, L.getD (0 + j) 0 ≠ 2) ∧
        ¬(0 + 0 < L.length ∧ L.getD (0 + 0) 0 = 1) ∧
        (∀ j < 0, 0 ≤ j → L.getD j 0 ≠ 1) := by
      refine ⟨by omega, ?_, by omega⟩
      rintro ⟨hlt, hL1⟩
      have hcv := hcompat 0 (by rw [hL1]; omega)
      rw [hL1] at hcv
      rw [encodeCell, if_neg (hU1 0)] at hcv
      omega
    rw [if_pos hcan]
    have hplace0 : placeRun (maskUpTo (encodeLine U) 0) 0 0 = maskUpTo (encodeLine U) 0 := rfl
    rw [hplace0]
    exact encodeLine_mem_configsAux [] U L (0 + 0 + 1) 0 hlen hbin hcompat (by omega)
      (fun j _ hj1 => by
        have hj0 : j = 0 := by omega
        subst hj0
        exact hU1 0)
      (calcHintsAux_eq_nil_of_no_one (U.drop 1)
        (fun v hv => hno1 v (List.drop_subset 1 U hv))).symm

/-- The truth line's encoding is always among the enumerated
configurations of its own clue. -/
theorem encodeLine_mem_getConfigs (U L : List Nat)
    (hlen : L.length = U.length) (hbin : BinaryLine U) (hcompat : CompatLine L U) :
    encodeLine U ∈ getConfigs L (calculateHints U) := by
  have hrepl : List.replicate L.length (0 : Nat) = maskUpTo (encodeLine U) 0 := by
    rw [maskUpTo_zero, encodeLine_length, hlen]
  rw [getConfigs, calculateHints, hrepl]
  cases hne : calcHintsAux U 0 with
  | nil =>
      rw [List.isEmpty_nil, if_pos rfl]
      exact encodeLine_mem_configsAux_zero U L hlen hbin hcompat
        (no_one_of_calcHintsAux_eq_nil U hne)
  | cons a t =>
      rw [List.isEmpty_cons, if_neg (by simp)]
      exact encodeLine_mem_configsAux (a :: t) U L 0 0 hlen hbin hcompat (by omega)
        (by omega) (by rw [List.drop_zero, hne])

/-- `solveLine` soundness: given the truth line's own clue and a
truth-compatible partial line, every resolved cell of the output equals
the truth's terminal state, and the line length is preserved. -/
theorem solveLine_sound (L U hints : List Nat)
    (hlen : L.length = U.length) (hbin : BinaryLine U) (hcompat : CompatLine L U)
    (hhints : hints = calculateHints U) :
    (solveLine L hints).1.length = L.length ∧ CompatLine (solveLine L hints).1 U := by
  have hmem : encodeLine U ∈ getConfigs L hints := by
    rw [hhints]
    exact encodeLine_mem_getConfigs U L hlen hbin hcompat
  rw [solveLine]
  have hne : ¬ (getConfigs L hints).isEmpty = true := by
    intro hc
    rw [List.isEmpty_iff] at hc
    rw [hc] at hmem
    exact absurd hmem (List.not_mem_nil _)
  rw [if_neg hne]
  dsimp only
  constructor
  · rw [List.length_map, List.length_range]
  · intro i hi
    rw [getD_map_range] at hi ⊢
    by_cases hilen : i < L.length
    · rw [if_pos hilen] at hi ⊢
      have hiu : i < U.length := by omega
      by_cases hv : L.getD i 0 ≠ 0
      · rw [if_pos hv] at hi ⊢
        exact hcompat i hv
      · rw [if_neg hv] at hi ⊢
        by_cases hall1 : ∀ cfg ∈ getConfigs L hints, cfg.getD i 0 = 1
        · rw [if_pos hall1] at hi ⊢
          have hE := hall1 _ hmem
          rw [encodeLine_getD_lt U i hiu] at hE
          exact hE.symm
        · rw [if_neg hall1] at hi ⊢
          by_cases hall2 : ∀ cfg ∈ getConfigs L hints, cfg.getD i 0 ≠ 1
          · rw [if_pos hall2] at hi ⊢
            have hE := hall2 _ hmem
            rw [encodeLine_getD_lt U i hiu] at hE
            rcases encodeCell_values (U.getD i 0) with hv2 | hv2
            · exact absurd hv2 hE
            · rw [hv2]
          · rw [if_neg hall2] at hi
            exact absurd rfl hi
    · rw [if_neg hilen] at hi
      exact absurd rfl hi

end SeedScript

/-- C2: for every seed (including the degenerate `NaN` stream), size and
density range, the client's `generatePuzzle` and the server's
`generateTargetGrid` consume the identical Mulberry32 stream and return
bit-identical grids — the noise pass, the Fisher–Yates correction pass
continuing the stream, and the degeneracy guard all agree. -/
theorem c2_generatePuzzle_eq_generateTargetGrid :
    (∀ (seed : Option Int) (k : Nat), Gemini.rngAt seed k = ValidationJs.rngAt seed k) ∧
    ∀ (seed : Option Int) (size : Nat) (mn mx : ℚ) (lbl : String),
      Gemini.generatePuzzle seed size ⟨lbl, mn, mx⟩ =
        ValidationJs.generateTargetGrid seed size ⟨mn, mx⟩ :=
  ⟨fun _ _ => rfl, generatePuzzle_agree⟩

/-- C1 (refuted: code bug): for the shared difficulty key `VERY_HARD`
the client table (`src/leaderboard.tsx`) holds the band `[0.40, 0.48]`
while the validator's table holds `[0.10, 0.30]`, and already at
`seed = 1, size = 3` the two sides derive different grids, so validation
of honestly-played non-`MEDIUM` puzzles fails. -/
theorem c1_difficulty_tables_diverge :
    ClientConfig.DIFFICULTY_CONFIG "VERY_HARD" =
      some ⟨"Very Hard (40-48%)", 0.40, 0.48⟩ ∧
    ValidationJs.DIFFICULTY_CONFIG "VERY_HARD" = some ⟨0.10, 0.30⟩ ∧
    Gemini.generatePuzzle (some 1) 3 ⟨"Very Hard (40-48%)", 0.40, 0.48⟩ ≠
      ValidationJs.generateTargetGrid (some 1) 3 ⟨0.10, 0.30⟩ := by
  refine ⟨by with_unfolding_all decide, by with_unfolding_all decide, ?_⟩
  with_unfolding_all decide

/-- C4: for every seed, positive size and density band inside `[0, 1]`,
the grid right after the density-correction pass holds exactly
`floor(size² · targetDensity)` filled cells, and the returned grid keeps
that exact count (the degeneracy guard cannot fire on a corrected
grid). -/
theorem c4_density_conformance (seed : Option Int) (size : Nat)
    (cfg : Gemini.DifficultySettings) (hsize : 1 ≤ size)
    (h0 : 0 ≤ cfg.minDensity) (h1 : cfg.minDensity ≤ cfg.maxDensity)
    (h2 : cfg.maxDensity ≤ 1) :
    JsRt.filledCount (Gemini.densityCorrected seed size cfg) =
      Gemini.targetFillCount seed size cfg ∧
    JsRt.filledCount (Gemini.generatePuzzle seed size cfg) =
      Gemini.targetFillCount seed size cfg :=
  ⟨Gemini.densityCorrected_filledCount seed size cfg h0 h1 h2,
   Gemini.generatePuzzle_filledCount seed size cfg h0 h1 h2⟩

/-- Witness for C4 at `seed = 7, size = 3`, the `MEDIUM` band. -/
theorem c4_density_conformance_witness :
    ((1 : Nat) ≤ 3 ∧ (0 : ℚ) ≤ 0.53 ∧ (0.53 : ℚ) ≤ 0.58 ∧ (0.58 : ℚ) ≤ 1) ∧
    JsRt.filledCount (Gemini.densityCorrected (some 7) 3 ⟨"Medium (53-58%)", 0.53, 0.58⟩) =
      Gemini.targetFillCount (some 7) 3 ⟨"Medium (53-58%)", 0.53, 0.58⟩ ∧
    JsRt.filledCount (Gemini.generatePuzzle (some 7) 3 ⟨"Medium (53-58%)", 0.53, 0.58⟩) =
      Gemini.targetFillCount (some 7) 3 ⟨"Medium (53-58%)", 0.53, 0.58⟩ :=
  ⟨⟨by norm_num, by norm_num, by norm_num, by norm_num⟩,
   c4_density_conformance (some 7) 3 ⟨"Medium (53-58%)", 0.53, 0.58⟩
     (by norm_num) (by norm_num) (by norm_num) (by norm_num)⟩

/-- C10: wherever the post-correction grid is neither all-empty against
a positive target nor all-full against a sub-maximal target, the seed
script's `generateGrid` (which omits the step 3 safety check) returns
exactly the client's `generatePuzzle` grid. -/
theorem c10_seedScript_matches_client (seed : Option Int) (size : Nat)
    (mn mx : ℚ) (lbl : String)
    (hguard1 : ¬(JsRt.filledCount (Gemini.densityCorrected seed size ⟨lbl, mn, mx⟩) = 0 ∧
      0 < Gemini.targetFillCount seed size ⟨lbl, mn, mx⟩))
    (hguard2 : ¬(JsRt.filledCount (Gemini.densityCorrected seed size ⟨lbl, mn, mx⟩) =
        size * size ∧
      Gemini.targetFillCount seed size ⟨lbl, mn, mx⟩ < size * size)) :
    SeedScript.generateGrid seed size ⟨mn, mx⟩ =
      Gemini.generatePuzzle seed size ⟨lbl, mn, mx⟩ := by
  rw [seedScript_generateGrid_agree seed size mn mx lbl]
  rw [Gemini.generatePuzzle, Gemini.safetyChecked]
  simp only [hguard1, hguard2, if_false]

/-- Witness for C10 at `seed = 5, size = 2`, the `MEDIUM` band. -/
theorem c10_seedScript_matches_client_witness :
    (¬(JsRt.filledCount (Gemini.densityCorrected (some 5) 2 ⟨"Medium (53-58%)", 0.53, 0.58⟩) = 0 ∧
        0 < Gemini.targetFillCount (some 5) 2 ⟨"Medium (53-58%)", 0.53, 0.58⟩) ∧
     ¬(JsRt.filledCount (Gemini.densityCorrected (some 5) 2 ⟨"Medium (53-58%)", 0.53, 0.58⟩) = 2 * 2 ∧
        Gemini.targetFillCount (some 5) 2 ⟨"Medium (53-58%)", 0.53, 0.58⟩ < 2 * 2)) ∧
    SeedScript.generateGrid (some 5) 2 ⟨0.53, 0.58⟩ =
      Gemini.generatePuzzle (some 5) 2 ⟨"Medium (53-58%)", 0.53, 0.58⟩ :=
  ⟨⟨by with_unfolding_all decide, by with_unfolding_all decide⟩,
   c10_seedScript_matches_client (some 5) 2 0.53 0.58 "Medium (53-58%)"
     (by with_unfolding_all decide) (by with_unfolding_all decide)⟩


/-! ## Shape and binarity of the corrected grid -/

namespace Gemini

open JsRt

/-- The density-corrected grid keeps the `size × size` shape. -/
theorem densityCorrected_shape (seed : Option Int) (size : Nat)
    (cfg : DifficultySettings) :
    GridShape (densityCorrected seed size cfg) size := by
  have hs := initialNoise_shape seed size cfg
  rw [densityCorrected]
  by_cases hpos : (0 : Int) < (JsRt.filledCount (initialNoise seed size cfg) : Int) -
      targetFillCount seed size cfg
  · simp only [hpos, if_true]
    exact flipDown_shape _ _ _ _ hs
  · simp only [hpos, if_false]
    by_cases hneg : ((JsRt.filledCount (initialNoise seed size cfg) : Int) -
        targetFillCount seed size cfg) < 0
    · simp only [hneg, if_true]
      exact flipUp_shape _ _ _ _ hs
    · simp only [hneg, if_false]
      exact hs

/-- The density-corrected grid stays binary. -/
theorem densityCorrected_binary (seed : Option Int) (size : Nat)
    (cfg : DifficultySettings) :
    GridBinary (densityCorrected seed size cfg) := by
  have hb := initialNoise_binary seed size cfg
  rw [densityCorrected]
  by_cases hpos : (0 : Int) < (JsRt.filledCount (initialNoise seed size cfg) : Int) -
      targetFillCount seed size cfg
  · simp only [hpos, if_true]
    exact flipDown_binary _ _ _ hb
  · simp only [hpos, if_false]
    by_cases hneg : ((JsRt.filledCount (initialNoise seed size cfg) : Int) -
        targetFillCount seed size cfg) < 0
    · simp only [hneg, if_true]
      exact flipUp_binary _ _ _ hb
    · simp only [hneg, if_false]
      exact hb

end Gemini

/-! ## Grid-level solver soundness (seed-pool script) -/

namespace SeedScript

open JsRt

/-- The script's `generateGrid` keeps the `size × size` shape. -/
theorem generateGrid_shape (seed : Option Int) (size : Nat) (cfg : DensityRange) :
    GridShape (generateGrid seed size cfg) size := by
  obtain ⟨mn, mx⟩ := cfg
  rw [seedScript_generateGrid_agree seed size mn mx ""]
  exact Gemini.densityCorrected_shape seed size ⟨"", mn, mx⟩

/-- The script's `generateGrid` produces a binary grid. -/
theorem generateGrid_binary (seed : Option Int) (size : Nat) (cfg : DensityRange) :
    GridBinary (generateGrid seed size cfg) := by
  obtain ⟨mn, mx⟩ := cfg
  rw [seedScript_generateGrid_agree seed size mn mx ""]
  exact Gemini.densityCorrected_binary seed size ⟨"", mn, mx⟩

/-- Truth-compatibility of a partial grid: every resolved cell already
holds the truth's terminal state. -/
def CompatGrid (g T : List (List Nat)) : Prop :=
  ∀ r c, getCell g r c ≠ 0 → getCell g r c = encodeCell (getCell T r c)

/-- The invariant carried by the solve loop. -/
def SolInv (n : Nat) (T g : List (List Nat)) : Prop :=
  GridShape g n ∧ CompatGrid g T

/-- Reading a column entry is reading the grid cell. -/
theorem scGetCol_getD (g : List (List Nat)) (c r : Nat) :
    (getCol g c).getD r 0 = getCell g r c := by
  rw [getCol, getCell, List.getD_eq_getElem?_getD, List.getElem?_map,
    List.getD_eq_getElem?_getD g r []]
  cases g[r]? with
  | none => rfl
  | some row => rfl

theorem scGetCell_setRow_ne (g : List (List Nat)) (rr r c : Nat) (nl : List Nat)
    (h : r ≠ rr) : getCell (setRow g rr nl) r c = getCell g r c := by
  rw [getCell, setRow, getD_set_ne _ _ _ _ _ (fun hx => h hx.symm)]
  rfl

theorem scGetCell_setRow_self (g : List (List Nat)) (rr c : Nat) (nl : List Nat)
    (hrr : rr < g.length) : getCell (setRow g rr nl) rr c = nl.getD c 0 := by
  rw [getCell, setRow, getD_set_self _ _ _ _ hrr]

/-- The row a `setCol` write leaves at index `r`. -/
theorem scSetCol_getRow (g : List (List Nat)) (cc : Nat) (nl : List Nat) (r : Nat) :
    (setCol g cc nl).getD r [] =
      if r < g.length then (g.getD r []).set cc (nl.getD r 0) else [] := by
  rw [setCol, List.getD_eq_getElem?_getD (List.mapIdx _ g) r [], List.getElem?_mapIdx]
  by_cases hr : r < g.length
  · rw [List.getElem?_eq_getElem hr, if_pos hr, List.getD_eq_getElem g [] hr]
    rfl
  · rw [List.getElem?_eq_none (by omega), if_neg hr]
    rfl

theorem scGetCell_setCol_ne (g : List (List Nat)) (cc r c : Nat) (nl : List Nat)
    (h : c ≠ cc) : getCell (setCol g cc nl) r c = getCell g r c := by
  rw [getCell, scSetCol_getRow]
  by_cases hr : r < g.length
  · rw [if_pos hr, getD_set_ne _ _ _ _ _ (fun hx => h hx.symm)]
    rfl
  · rw [if_neg hr, getCell, List.getD_eq_default g [] (by omega)]

theorem scGetCell_setCol_self (g : List (List Nat)) (cc r : Nat) (nl : List Nat)
    (hr : r < g.length) (hc : cc < (g.getD r []).length) :
    getCell (setCol g cc nl) r cc = nl.getD r 0 := by
  rw [getCell, scSetCol_getRow, if_pos hr]
  exact getD_set_self _ _ _ _ hc

/-- `getD` through `map` inside the list's range. -/
theorem scGetD_map (l : List (List Nat)) (f : List Nat → List Nat) (i : Nat)
    (h : i < l.length) : (l.map f).getD i [] = f (l.getD i []) := by
  rw [List.getD_eq_getElem _ _ (by rw [List.length_map]; exact h),
    List.getElem_map, List.getD_eq_getElem _ _ h]

/-- A fully resolved grid has no zero cell in range. -/
theorem isSolved_nonzero (g : List (List Nat)) (h : isSolved g = true)
    (r c : Nat) (hr : r < g.length) (hc : c < (g.getD r []).length) :
    getCell g r c ≠ 0 := by
  intro h0
  rw [isSolved, List.all_eq_true] at h
  have hrowmem : g.getD r [] ∈ g := by
    rw [List.getD_eq_getElem g [] hr]
    exact List.getElem_mem hr
  have hrow := h _ hrowmem
  rw [List.all_eq_true] at hrow
  have hcell := hrow _ (List.getElem_mem hc)
  rw [getCell, List.getD_eq_getElem _ 0 hc] at h0
  simp only [decide_eq_true_eq] at hcell
  exact hcell h0

end SeedScript

namespace SeedScript

open JsRt

/-- Writing back a solved row preserves the invariant. -/
theorem solInv_setRow (n : Nat) (T g : List (List Nat)) (rr : Nat) (hints : List Nat)
    (hT : GridShape T n) (hTb : GridBinary T) (hinv : SolInv n T g) (hrr : rr < n)
    (hh : hints = calculateHints (T.getD rr [])) :
    SolInv n T (setRow g rr (solveLine (getRow g rr) hints).1) := by
  obtain ⟨⟨hglen, hgrow⟩, hcompat⟩ := hinv
  have hrowlenT : (T.getD rr []).length = n := rowD_length hT hrr
  have hrowlenG : (g.getD rr []).length = n := rowD_length ⟨hglen, hgrow⟩ hrr
  have hbinU : BinaryLine (T.getD rr []) := fun v hv => hTb _ (rowD_mem hT hrr) v hv
  have hcompatL : CompatLine (getRow g rr) (T.getD rr []) := fun i hi => hcompat rr i hi
  have hlenLU : (getRow g rr).length = (T.getD rr []).length := by
    show (g.getD rr []).length = (T.getD rr []).length
    rw [hrowlenG, hrowlenT]
  obtain ⟨hnlen, hncompat⟩ :=
    solveLine_sound (getRow g rr) (T.getD rr []) hints hlenLU hbinU hcompatL hh
  refine ⟨⟨?_, ?_⟩, ?_⟩
  · rw [setRow, List.length_set, hglen]
  · intro row hrow
    rcases List.mem_or_eq_of_mem_set hrow with hmem | heq
    · exact hgrow row hmem
    · rw [heq, hnlen]
      show (g.getD rr []).length = n
      exact hrowlenG
  · intro r c hne
    by_cases hr : r = rr
    · subst hr
      rw [scGetCell_setRow_self g r c _ (by omega)] at hne ⊢
      exact hncompat c hne
    · rw [scGetCell_setRow_ne g rr r c _ hr] at hne ⊢
      exact hcompat r c hne

/-- Writing back a solved column preserves the invariant. -/
theorem solInv_setCol (n : Nat) (T g : List (List Nat)) (cc : Nat) (hints : List Nat)
    (hT : GridShape T n) (hTb : GridBinary T) (hinv : SolInv n T g) (hcc : cc < n)
    (hh : hints = calculateHints (getCol T cc)) :
    SolInv n T (setCol g cc (solveLine (getCol g cc) hints).1) := by
  obtain ⟨⟨hglen, hgrow⟩, hcompat⟩ := hinv
  have hlenLU : (getCol g cc).length = (getCol T cc).length := by
    rw [getCol, getCol, List.length_map, List.length_map, hglen, hT.1]
  have hbinU : BinaryLine (getCol T cc) := by
    intro v hv
    rw [getCol] at hv
    obtain ⟨row, hrow, hval⟩ := List.mem_map.mp hv
    by_cases hwc : cc < row.length
    · rw [← hval, List.getD_eq_getElem row 0 hwc]
      exact hTb row hrow _ (List.getElem_mem hwc)
    · rw [← hval, List.getD_eq_default row 0 (by omega)]
      omega
  have hcompatL : CompatLine (getCol g cc) (getCol T cc) := by
    intro r hr
    rw [scGetCol_getD g cc r] at hr ⊢
    rw [scGetCol_getD T cc r]
    exact hcompat r cc hr
  obtain ⟨hnlen, hncompat⟩ :=
    solveLine_sound (getCol g cc) (getCol T cc) hints hlenLU hbinU hcompatL hh
  refine ⟨⟨?_, ?_⟩, ?_⟩
  · rw [setCol, List.length_mapIdx, hglen]
  · intro row hrow
    rw [List.mem_iff_getElem] at hrow
    obtain ⟨i, hilen, hrow_eq⟩ := hrow
    have hilen2 : i < g.length := by
      rw [setCol, List.length_mapIdx] at hilen
      exact hilen
    simp only [setCol, List.getElem_mapIdx] at hrow_eq
    rw [← hrow_eq, List.length_set]
    exact hgrow _ (List.getElem_mem hilen2)
  · intro r c hne
    by_cases hc : c = cc
    · subst hc
      by_cases hr : r < n
      · have hwide : c < (g.getD r []).length := by
          rw [rowD_length ⟨hglen, hgrow⟩ hr]
          exact hcc
        rw [scGetCell_setCol_self g c r _ (by omega) hwide] at hne ⊢
        have hv := hncompat r hne
        rw [hv, scGetCol_getD T c r]
      · exfalso
        apply hne
        rw [getCell, scSetCol_getRow, if_neg (by omega)]
        rfl
    · rw [scGetCell_setCol_ne g cc r c _ hc] at hne ⊢
      exact hcompat r c hne

end SeedScript

namespace SeedScript

open JsRt

/-- The row pass of `solvePass` preserves the invariant. -/
theorem foldRows_inv (n : Nat) (T rowHints : List (List Nat))
    (hT : GridShape T n) (hTb : GridBinary T)
    (hh : ∀ r < n, rowHints.getD r [] = calculateHints (T.getD r [])) :
    ∀ (idxs : List Nat) (acc : List (List Nat) × Bool),
      (∀ r ∈ idxs, r < n) → SolInv n T acc.1 →
      SolInv n T ((idxs.foldl (fun acc r =>
        let res := solveLine (getRow acc.1 r) (rowHints.getD r [])
        (if res.2 then setRow acc.1 r res.1 else acc.1, acc.2 || res.2)) acc).1) := by
  intro idxs
  induction idxs with
  | nil => intro acc _ h; exact h
  | cons r rest ih =>
      intro acc hmem hinv
      rw [List.foldl_cons]
      apply ih _ (fun x hx => hmem x (List.mem_cons_of_mem _ hx))
      dsimp only
      have hrn : r < n := hmem r (List.mem_cons_self _ _)
      by_cases hch : (solveLine (getRow acc.1 r) (rowHints.getD r [])).2 = true
      · rw [if_pos hch]
        exact solInv_setRow n T acc.1 r _ hT hTb hinv hrn (hh r hrn)
      · rw [if_neg hch]
        exact hinv

/-- The column pass of `solvePass` preserves the invariant. -/
theorem foldCols_inv (n : Nat) (T colHints : List (List Nat))
    (hT : GridShape T n) (hTb : GridBinary T)
    (hh : ∀ c < n, colHints.getD c [] = calculateHints (getCol T c)) :
    ∀ (idxs : List Nat) (acc : List (List Nat) × Bool),
      (∀ c ∈ idxs, c < n) → SolInv n T acc.1 →
      SolInv n T ((idxs.foldl (fun acc c =>
        let res := solveLine (getCol acc.1 c) (colHints.getD c [])
        (if res.2 then setCol acc.1 c res.1 else acc.1, acc.2 || res.2)) acc).1) := by
  intro idxs
  induction idxs with
  | nil => intro acc _ h; exact h
  | cons c rest ih =>
      intro acc hmem hinv
      rw [List.foldl_cons]
      apply ih _ (fun x hx => hmem x (List.mem_cons_of_mem _ hx))
      dsimp only
      have hcn : c < n := hmem c (List.mem_cons_self _ _)
      by_cases hch : (solveLine (getCol acc.1 c) (colHints.getD c [])).2 = true
      · rw [if_pos hch]
        exact solInv_setCol n T acc.1 c _ hT hTb hinv hcn (hh c hcn)
      · rw [if_neg hch]
        exact hinv

/-- One full pass preserves the invariant. -/
theorem solvePass_inv (n : Nat) (T rowHints colHints : List (List Nat))
    (hT : GridShape T n) (hTb : GridBinary T)
    (hhr : ∀ r < n, rowHints.getD r [] = calculateHints (T.getD r []))
    (hhc : ∀ c < n, colHints.getD c [] = calculateHints (getCol T c))
    (st : List (List Nat)) (hinv : SolInv n T st) :
    SolInv n T (solvePass n rowHints colHints st).1 := by
  rw [solvePass]
  apply foldCols_inv n T colHints hT hTb hhc _ _ (fun c hc => List.mem_range.mp hc)
  exact foldRows_inv n T rowHints hT hTb hhr _ _ (fun r hr => List.mem_range.mp hr) hinv

/-- The whole solve loop preserves the invariant. -/
theorem solveLoop_inv (n : Nat) (T rowHints colHints : List (List Nat))
    (hT : GridShape T n) (hTb : GridBinary T)
    (hhr : ∀ r < n, rowHints.getD r [] = calculateHints (T.getD r []))
    (hhc : ∀ c < n, colHints.getD c [] = calculateHints (getCol T c)) :
    ∀ (fuel : Nat) (st : List (List Nat)), SolInv n T st →
      SolInv n T (solveLoop n rowHints colHints fuel st) := by
  intro fuel
  induction fuel with
  | zero => intro st h; exact h
  | succ fuel ih =>
      intro st hinv
      rw [solveLoop]
      split
      · exact ih _ (solvePass_inv n T rowHints colHints hT hTb hhr hhc st hinv)
      · exact hinv

/-- The all-unknown start satisfies the invariant. -/
theorem solInv_initial (n : Nat) (T : List (List Nat)) :
    SolInv n T (initialGrid n) := by
  constructor
  · constructor
    · rw [initialGrid, List.length_replicate]
    · intro row hrow
      rw [initialGrid] at hrow
      rw [List.eq_of_mem_replicate hrow, List.length_replicate]
  · intro r c h0
    exfalso
    apply h0
    rw [initialGrid, getCell]
    by_cases hr : r < n
    · rw [List.getD_eq_getElem _ [] (by rw [List.length_replicate]; exact hr),
        List.getElem_replicate]
      by_cases hc : c < n
      · rw [List.getD_eq_getElem _ 0 (by rw [List.length_replicate]; exact hc),
          List.getElem_replicate]
      · rw [List.getD_eq_default _ 0 (by rw [List.length_replicate]; omega)]
    · rw [List.getD_eq_default _ [] (by rw [List.length_replicate]; omega)]
      rfl

/-- `Solver.solve` soundness: when the solver reports success on the
clues of a binary truth grid, its terminal grid is the truth grid's
exact terminal encoding. -/
theorem solve_sound (n : Nat) (T rowHints colHints : List (List Nat))
    (hT : GridShape T n) (hTb : GridBinary T)
    (hhr : ∀ r < n, rowHints.getD r [] = calculateHints (T.getD r []))
    (hhc : ∀ c < n, colHints.getD c [] = calculateHints (getCol T c))
    (hok : (solve n rowHints colHints).2 = true) :
    (solve n rowHints colHints).1 = encodeGrid T := by
  rw [solve] at hok ⊢
  dsimp only at hok ⊢
  obtain ⟨⟨hflen, hfrow⟩, hfcomp⟩ :=
    solveLoop_inv n T rowHints colHints hT hTb hhr hhc (n * n + 1) (initialGrid n)
      (solInv_initial n T)
  apply List.ext_getElem
  · rw [hflen, encodeGrid, List.length_map, hT.1]
  · intro r h1 h2
    have hrn : r < n := by
      have h1c := h1
      rw [hflen] at h1c
      exact h1c
    have hrT : r < T.length := by rw [hT.1]; exact hrn
    apply List.ext_getElem
    · rw [hfrow _ (List.getElem_mem h1)]
      simp only [encodeGrid, List.getElem_map, encodeLine_length]
      rw [hT.2 _ (List.getElem_mem hrT)]
    · intro c hc1 hc2
      have hrowflen := hfrow _ (List.getElem_mem h1)
      have hcn : c < n := by omega
      have hTrowlen : (T.getD r []).length = n := rowD_length hT hrn
      have hcD : c < ((solveLoop n rowHints colHints (n * n + 1)
          (initialGrid n)).getD r []).length := by
        rw [List.getD_eq_getElem _ [] h1]
        exact hc1
      have hL : getCell (solveLoop n rowHints colHints (n * n + 1) (initialGrid n)) r c =
          (solveLoop n rowHints colHints (n * n + 1) (initialGrid n))[r][c] := by
        rw [getCell, List.getD_eq_getElem _ [] h1, List.getD_eq_getElem _ 0 hc1]
      have hcTrow : c < (T[r]).length := by
        rw [hT.2 _ (List.getElem_mem hrT)]
        exact hcn
      have hR : getCell T r c = (T[r])[c] := by
        rw [getCell, List.getD_eq_getElem T [] hrT, List.getD_eq_getElem _ 0 hcTrow]
      have hcomp := hfcomp r c
        (isSolved_nonzero _ hok r c h1 (by rw [List.getD_eq_getElem _ [] h1]; exact hc1))
      rw [← hL, hcomp, hR]
      simp only [encodeGrid, encodeLine, List.getElem_map]

end SeedScript

/-- **C7.** Solvability gate of the seed-pool script: whenever
`Solver.solve()` returns `true` on the row and column clues extracted
from a generated grid, the solver's terminal grid is fully resolved and
matches the generated grid exactly — every 1-cell of the generated grid
ends `FILLED` and every 0-cell ends `CROSSED`. -/
theorem c7_solvability_gate (seed : Option Int) (size : Nat)
    (cfg : SeedScript.DensityRange)
    (hok : (SeedScript.solve size
        ((SeedScript.generateGrid seed size cfg).map SeedScript.calculateHints)
        ((List.range size).map (fun c => SeedScript.calculateHints
          (SeedScript.getCol (SeedScript.generateGrid seed size cfg) c)))).2 = true) :
    (SeedScript.solve size
        ((SeedScript.generateGrid seed size cfg).map SeedScript.calculateHints)
        ((List.range size).map (fun c => SeedScript.calculateHints
          (SeedScript.getCol (SeedScript.generateGrid seed size cfg) c)))).1 =
      SeedScript.encodeGrid (SeedScript.generateGrid seed size cfg) := by
  refine SeedScript.solve_sound size (SeedScript.generateGrid seed size cfg) _ _
    (SeedScript.generateGrid_shape seed size cfg)
    (SeedScript.generateGrid_binary seed size cfg) ?_ ?_ hok
  · intro r hrn
    exact SeedScript.scGetD_map _ _ r
      (by rw [(SeedScript.generateGrid_shape seed size cfg).1]; exact hrn)
  · intro c hcn
    rw [JsRt.getD_map_range, if_pos hcn]

/-- Concrete instance of C7: seed 2, size 3, density band [0.5, 0.5]. -/
theorem c7_solvability_gate_witness :
    (SeedScript.solve 3
        ((SeedScript.generateGrid (some 2) 3 ⟨0.5, 0.5⟩).map SeedScript.calculateHints)
        ((List.range 3).map (fun c => SeedScript.calculateHints
          (SeedScript.getCol (SeedScript.generateGrid (some 2) 3 ⟨0.5, 0.5⟩) c)))).2 = true ∧
    (SeedScript.solve 3
        ((SeedScript.generateGrid (some 2) 3 ⟨0.5, 0.5⟩).map SeedScript.calculateHints)
        ((List.range 3).map (fun c => SeedScript.calculateHints
          (SeedScript.getCol (SeedScript.generateGrid (some 2) 3 ⟨0.5, 0.5⟩) c)))).1 =
      SeedScript.encodeGrid (SeedScript.generateGrid (some 2) 3 ⟨0.5, 0.5⟩) :=
  ⟨by with_unfolding_all decide,
   c7_solvability_gate (some 2) 3 ⟨0.5, 0.5⟩ (by with_unfolding_all decide)⟩
